import Mathlib

/-!
Shallow embedding of the MPPT core of `centralcontrol` (file
`src/centralcontrol/mppt.py`): the IV-curve inspector (`register_curve`),
the safety monitor (`detect_short_circuits`), the gradient-descent tracker
(`gradient_descent`, with optional Snaith soaks) and the tracker runner
(`launch_tracker`).

Modelling conventions:
* Python floats are embedded as rationals (`ℚ`).
* Python dicts keyed by SMU channel numbers are embedded as association
  lists `List (ℕ × α)` in insertion order; `dlookup`/`dset`/`dpop` mirror
  subscript read, subscript assignment and `pop`.
* The SMU, the wall clock, `random.choice` and the externally-set `abort`
  flag are an oracle (`SmuEnv`) consulted with a monotonically increasing
  query counter, so every run is a deterministic, executable function.
* Every SMU driver operation the core performs is recorded in an ordered
  trace of `Call` values.
* `while` loops driven by wall-clock time are embedded as fuel-bounded
  recursion; all claims proved about them hold for every fuel value.
-/

/- The Batteries definitions of rational arithmetic are `@[irreducible]`;
re-marking them semireducible lets concrete runs of the model be evaluated
definitionally (`rfl`/`decide`). -/
set_option allowUnsafeReducibility true
attribute [semireducible] Rat.mul Rat.add Rat.sub Rat.inv Rat.div Rat.ofScientific

/-- A single SMU measurement record `(V, I, t, status)`. -/
structure MRec where
  v : ℚ
  i : ℚ
  t : ℚ
  status : ℕ
deriving DecidableEq

instance : Inhabited MRec := ⟨⟨0, 0, 0, 0⟩⟩

/-- A per-channel batch of measurement records, keyed by channel number,
as returned by `sm.measure`. -/
abbrev Batch := List (ℕ × List MRec)

/-- Association-list read, mirroring Python dict subscripting (`d[k]`);
`none` stands for the `KeyError` case. -/
def dlookup {α : Type} : List (ℕ × α) → ℕ → Option α
  | [], _ => none
  | e :: rest, k => if e.1 = k then some e.2 else dlookup rest k

/-- Association-list write, mirroring Python dict assignment (`d[k] = v`):
replace the first binding of `k` in place, else append. -/
def dset {α : Type} : List (ℕ × α) → ℕ → α → List (ℕ × α)
  | [], k, v => [(k, v)]
  | e :: rest, k, v => if e.1 = k then (k, v) :: rest else e :: dset rest k v

/-- Association-list removal, mirroring Python `d.pop(k, None)`. -/
def dpop {α : Type} : List (ℕ × α) → ℕ → List (ℕ × α)
  | [], _ => []
  | e :: rest, k => if e.1 = k then rest else e :: dpop rest k

/-- Key-list removal (for the `pixels` dict, of which only the keys are
relevant to the control flow; the values are opaque pixel descriptors). -/
def rmv : List ℕ → ℕ → List ℕ
  | [], _ => []
  | x :: xs, k => if x = k then xs else x :: rmv xs k

/-- Python `sorted(d.items())`: stable sort of an association list by key. -/
def sortKeys {α : Type} (l : List (ℕ × α)) : List (ℕ × α) :=
  l.insertionSort (fun a b => a.1 ≤ b.1)

/-- Last element with a default, mirroring Python `lst[-1]`. -/
def lastD {α : Type} : List α → α → α
  | [], d => d
  | [x], _ => x
  | _ :: y :: rest, d => lastD (y :: rest) d

/-- Maximum value of a list (junk value `0` on `[]`, where numpy would
raise), mirroring `numpy.max`. -/
def maxVal : List ℚ → ℚ
  | [] => 0
  | [x] => x
  | x :: y :: rest => max x (maxVal (y :: rest))

/-- Minimum value of a list (junk value `0` on `[]`), mirroring `numpy.min`. -/
def minVal : List ℚ → ℚ
  | [] => 0
  | [x] => x
  | x :: y :: rest => min x (minVal (y :: rest))

/-- First index attaining the maximum (junk value `0` on `[]`), mirroring
`numpy.argmax`. -/
def argmaxIdx : List ℚ → ℕ
  | [] => 0
  | [_] => 0
  | x :: y :: rest =>
    if maxVal (y :: rest) ≤ x then 0 else argmaxIdx (y :: rest) + 1

/-- First index attaining the minimum (junk value `0` on `[]`), mirroring
`numpy.argmin`. -/
def argminIdx : List ℚ → ℕ
  | [] => 0
  | [_] => 0
  | x :: y :: rest =>
    if x ≤ minVal (y :: rest) then 0 else argminIdx (y :: rest) + 1

/-- Per-channel reference state of the tracker: the slice of the source's
`self.Voc / self.Isc / self.Vmpp / self.Impp / self.Pmax / self.Mmpp`
dicts belonging to one channel (`none` = key absent). -/
structure ChSt where
  voc : Option ℚ
  isc : Option ℚ
  vmpp : Option ℚ
  impp : Option ℚ
  pmax : Option ℚ
  mmpp : Option (ℚ × ℚ × ℚ)
deriving DecidableEq

/-- The empty per-channel reference state. -/
def ChSt.empty : ChSt := ⟨none, none, none, none, none, none⟩

/-- The per-channel computation of `register_curve` up to `maxIndex`
(source lines 64-76): `p = v*i*(-1)`, `iscIndex = argmin |v|`,
`vocIndex = argmin |i|`, `maxIndex = argmax p`.  Returns
`(Pmax, Vmpp, Impp, maxIndex, Voc, Isc, Tmpp)`. -/
def inspectCh (recs : List MRec) : ℚ × ℚ × ℚ × ℕ × ℚ × ℚ × ℚ :=
  let vlist := recs.map (fun r => r.v)
  let ilist := recs.map (fun r => r.i)
  let tlist := recs.map (fun r => r.t)
  let plist := recs.map (fun r => r.v * r.i * (-1))
  let iscIndex := argminIdx (vlist.map (fun x => |x|))
  let isc := ilist.getD iscIndex 0
  let vocIndex := argminIdx (ilist.map (fun x => |x|))
  let voc := vlist.getD vocIndex 0
  let maxIndex := argmaxIdx plist
  let vmpp := vlist.getD maxIndex 0
  let pmax := plist.getD maxIndex 0
  let impp := ilist.getD maxIndex 0
  let tmpp := tlist.getD maxIndex 0
  (pmax, vmpp, impp, maxIndex, voc, isc, tmpp)

/-- The `light is True` update of `register_curve` for one channel
(source lines 81-119): replace the stored `(Vmpp, Impp, Pmax, Mmpp)` only
when the new `Pmax` strictly exceeds the stored one (or none is stored);
accept `Isc` / `Voc` only when the sweep straddles `0 V` / `0 A`. -/
def chUpdate (light : Bool) (s : ChSt) (recs : List MRec) :
    ChSt × (ℚ × ℚ × ℚ × ℕ) :=
  let r := inspectCh recs
  let pmax := r.1
  let vmpp := r.2.1
  let impp := r.2.2.1
  let maxIndex := r.2.2.2.1
  let voc := r.2.2.2.2.1
  let isc := r.2.2.2.2.2.1
  let tmpp := r.2.2.2.2.2.2
  let vlist := recs.map (fun r => r.v)
  let ilist := recs.map (fun r => r.i)
  if light then
    let newPmax : Bool :=
      match s.pmax with
      | some p0 => pmax > p0
      | none => true
    if newPmax then
      let s1 : ChSt :=
        { s with
          vmpp := some vmpp
          impp := some impp
          pmax := some pmax
          mmpp := some (vmpp, impp, tmpp) }
      let s2 : ChSt :=
        if minVal vlist ≤ 0 ∧ 0 ≤ maxVal vlist then { s1 with isc := some isc }
        else s1
      let s3 : ChSt :=
        if minVal ilist ≤ 0 ∧ 0 ≤ maxVal ilist then { s2 with voc := some voc }
        else s2
      (s3, (pmax, vmpp, impp, maxIndex))
    else (s, (pmax, vmpp, impp, maxIndex))
  else (s, (pmax, vmpp, impp, maxIndex))

/-- Per-channel reference-state fold used to state properties of repeated
`register_curve` calls on one channel: keep only the updated state. -/
def regCh (s : ChSt) (recs : List MRec) : ChSt :=
  (chUpdate true s recs).1

/-- Whole-state view of the tracker's reference dicts (one association
list per source dict). -/
structure RefSt where
  voc : List (ℕ × ℚ)
  isc : List (ℕ × ℚ)
  vmpp : List (ℕ × ℚ)
  impp : List (ℕ × ℚ)
  pmax : List (ℕ × ℚ)
  mmpp : List (ℕ × (ℚ × ℚ × ℚ))
deriving DecidableEq

/-- The empty reference state (a freshly `reset` tracker). -/
def RefSt.empty : RefSt := ⟨[], [], [], [], [], []⟩

/-- Read the per-channel slice of the reference state. -/
def RefSt.at (r : RefSt) (ch : ℕ) : ChSt :=
  ⟨dlookup r.voc ch, dlookup r.isc ch, dlookup r.vmpp ch,
   dlookup r.impp ch, dlookup r.pmax ch, dlookup r.mmpp ch⟩

/-- Write back the per-channel slice of the reference state. -/
def RefSt.put (r : RefSt) (ch : ℕ) (s : ChSt) : RefSt :=
  { voc := match s.voc with | some x => dset r.voc ch x | none => r.voc
    isc := match s.isc with | some x => dset r.isc ch x | none => r.isc
    vmpp := match s.vmpp with | some x => dset r.vmpp ch x | none => r.vmpp
    impp := match s.impp with | some x => dset r.impp ch x | none => r.impp
    pmax := match s.pmax with | some x => dset r.pmax ch x | none => r.pmax
    mmpp := match s.mmpp with | some x => dset r.mmpp ch x | none => r.mmpp }

/-- `register_curve` (source lines 51-122): fold the per-channel update
over `sorted(vector.items())`, collecting the returned
`(Pmaxs, Vmpps, Impps, maxIndexs)` dicts. -/
def register_curve (r : RefSt) (vector : Batch) (light : Bool) :
    RefSt × List (ℕ × (ℚ × ℚ × ℚ × ℕ)) :=
  (sortKeys vector).foldl
    (fun acc e =>
      let u := chUpdate light (acc.1.at e.1) e.2
      (acc.1.put e.1 u.1, acc.2 ++ [(e.1, u.2)]))
    (r, [])

/-- One SMU driver operation performed by the core, in order.  Scalar
channel arguments of the source (`enable_output(False, ch)`) are recorded
as singleton lists.  `measureProbe` is the single-channel diagnostic
measurement inside `detect_short_circuits`; `measureBatch` is the
main-loop measurement over `list(pixels.keys())`. -/
inductive Call where
  | setNplc (n : ℚ)
  | configureDC (vals : List (ℕ × ℚ))
  | measureBatch (chs : List ℕ)
  | measureProbe (ch : ℕ)
  | enableOutput (en : Bool) (chs : List ℕ)
deriving DecidableEq

/-- The oracle for everything outside the core: SMU measurement results,
the wall clock, `random.choice([-1, 1])` and the externally-set `abort`
flag.  `meas`/`probe`/`now` are consulted with a per-run query counter so
responses may differ between calls; `abortAt n` is the flag value read at
the head of main-loop iteration `n`. -/
structure SmuEnv where
  meas : ℕ → ℕ → List MRec
  probe : ℕ → ℕ → ℕ
  now : ℕ → ℚ
  sgn : ℕ → Bool
  abortAt : ℕ → Bool

/-- State threaded through `detect_short_circuits`: the measurement data
batch, the active `pixels` keys, the SMU call trace and the oracle query
counter. -/
structure DSCSt where
  data : Batch
  pixels : List ℕ
  trace : List Call
  k : ℕ

/-- Body of `detect_short_circuits` for one channel of the snapshot
(source lines 687-758).  Status `1` in any record of the channel's data:
disable the channel, evict it from `pixels`, drop its data.  Status `2`
(board-level overcurrent): disable the channel, probe its board mate
(`ch ± 1`); if the mate also reads status `2`, re-enable the channel,
evict the mate, then probe the channel itself and evict it too if it
still reads `2`; otherwise evict the channel.  The source reads the
mate-probe status as `self.sm.measure(other_ch, "dc")[ch][0][3]`
(indexing the result at `ch` although `other_ch` was measured — with a
driver that returns only the requested channel this would be a
`KeyError`); the model reads the status the environment assigns to that
probe.  A channel missing from `data` is skipped (the source would raise
`KeyError`; unreachable when board trips are absent, since `data` and
`pixels` shrink together). -/
def dscChannel (env : SmuEnv) (s : DSCSt) (ch : ℕ) : DSCSt :=
  match dlookup s.data ch with
  | none => s
  | some ch_data =>
    let statuses := ch_data.map (fun r => r.status)
    if 1 ∈ statuses then
      { data := dpop s.data ch
        pixels := rmv s.pixels ch
        trace := s.trace ++ [Call.enableOutput false [ch]]
        k := s.k }
    else if 2 ∈ statuses then
      if ch ∈ s.pixels then
        let other := if ch % 2 = 0 then ch + 1 else ch - 1
        let trace1 := s.trace ++ [Call.enableOutput false [ch], Call.measureProbe other]
        let st1 := env.probe s.k other
        let k1 := s.k + 1
        if st1 = 2 then
          let trace2 := trace1 ++
            [Call.enableOutput true [ch], Call.enableOutput false [other],
             Call.measureProbe ch]
          let pixels2 := rmv s.pixels other
          let data2 := dpop s.data other
          let st2 := env.probe k1 ch
          let k2 := k1 + 1
          if st2 = 2 then
            { data := dpop data2 ch
              pixels := rmv pixels2 ch
              trace := trace2 ++ [Call.enableOutput false [ch]]
              k := k2 }
          else
            { data := data2, pixels := pixels2, trace := trace2, k := k2 }
        else
          { data := dpop s.data ch
            pixels := rmv s.pixels ch
            trace := trace1
            k := k1 }
      else s
    else s

/-- `detect_short_circuits` (source lines 672-758): fold the per-channel
body over the snapshot `channels = list(pixels.keys())`. -/
def detect_short_circuits (env : SmuEnv) (s : DSCSt) : DSCSt :=
  s.pixels.foldl (dscChannel env) s

/-- Tracker algorithm parameters (the keyword arguments of
`gradient_descent`).  `maxStepInf` models a `max_step` for which the
source's upper-clamp guard `max_step < float("inf")` (line 425) is
False — the case for `+inf` and for `nan` — turning the upper clamp off. -/
structure GDParams where
  duration : ℚ
  alpha : ℚ
  minStep : ℚ
  nplc : ℚ
  snaith : Bool
  delayMs : ℚ
  maxStep : ℚ
  maxStepInf : Bool
  momentum : ℚ
  deltaZero : ℚ

/-- The defaults of `gradient_descent`'s keyword parameters (source lines
245-258); `duration`, `nplc` and `snaith` are always passed explicitly. -/
def gdDefaults (duration nplc : ℚ) (snaith : Bool) : GDParams :=
  { duration := duration, alpha := 10, minStep := 1/500, nplc := nplc,
    snaith := snaith, delayMs := 0, maxStep := 1/10, maxStepInf := false,
    momentum := 1/10, deltaZero := 1/100 }

/-- Full state threaded through `gradient_descent`. -/
structure GDSt where
  pixels : List ℕ
  trace : List Call
  k : ℕ
  q : List ℕ
  nextV : List (ℕ × ℚ)
  deltas : List (ℕ × ℚ)
  m : List Batch
  runTime : ℚ
  iters : ℕ
  vmpp : List (ℕ × ℚ)
  impp : List (ℕ × ℚ)
  lock : Bool
  t0g : ℚ

/-- `sign` helper of `gradient_descent` (source line 324-326):
`(1, -1)[int(num < 0)]`, so `sign 0 = 1`. -/
def pySign (num : ℚ) : ℚ := if num < 0 then -1 else 1

/-- The rational value of one draw of `random.choice([-1, 1])`. -/
def sgnQ (b : Bool) : ℚ := if b then 1 else -1

/-- The quadrant-lock clamp applied to every freshly computed setpoint
inside `gradient_descent` (source lines 347-350 and 432-435): under a
positive lock a negative value becomes `0.0001`, under a negative lock a
positive value becomes `-0.0001`; `0` passes through either way. -/
def lockClamp (lock : Bool) (v : ℚ) : ℚ :=
  if lock = true ∧ v < 0 then 1/10000
  else if lock = false ∧ 0 < v then -(1/10000)
  else v

/-- Finite-difference gradient for one channel of the newest batch
(source lines 353-385): objective `f = V·I` over the first record of each
channel's data; `none` when `v₀ = v₁` (the source's explicit
divide-by-zero guard).  A channel absent from the previous batch also
yields `none` (the source would raise `KeyError`; unreachable since batch
keys only shrink). -/
def gradOf (d1 : Batch) (ch : ℕ) (chd0 : List MRec) : Option ℚ :=
  match dlookup d1 ch with
  | none => none
  | some chd1 =>
    let r0 := chd0.headI
    let r1 := chd1.headI
    if r0.v = r1.v then none
    else some ((r0.v * r0.i - r1.v * r1.i) / (r0.v - r1.v) / (r0.t - r1.t))

/-- `compute_grad` over the measurement deque `m` (newest batch first). -/
def compute_grad (m : List Batch) : List (ℕ × Option ℚ) :=
  match m with
  | d0 :: d1 :: _ => d0.map (fun e => (e.1, gradOf d1 e.1 e.2))
  | _ => []

/-- The gradient-driven delta update for one channel (source lines
408-418): gradient defined → `δ ← −α·g + μ·δ_prev`; gradient undefined →
a randomly signed minimum step (`1e-4` when `min_step = 0`). -/
def gradVal (p : GDParams) (sgn : Bool) (gv : Option ℚ) (dprev : ℚ) : ℚ :=
  match gv with
  | some g => -1 * p.alpha * g + p.momentum * dprev
  | none => sgnQ sgn * (if p.minStep = 0 then 1/10000 else p.minStep)

/-- One step of the delta-update loop `for ch, gradient in
gradients.items(): deltas[ch] = ...`; the `deltas[ch]` read defaults to
`0` where the source would raise `KeyError` (unreachable: gradient keys
are a subset of delta keys). -/
def gradUpd (p : GDParams) (sgn : Bool) (acc : List (ℕ × ℚ))
    (e : ℕ × Option ℚ) : List (ℕ × ℚ) :=
  dset acc e.1 (gradVal p sgn e.2 ((dlookup acc e.1).getD 0))

/-- The delta-update pass over all computed gradients. -/
def gradPass (p : GDParams) (sgn : Bool) (grads : List (ℕ × Option ℚ))
    (deltas : List (ℕ × ℚ)) : List (ℕ × ℚ) :=
  grads.foldl (gradUpd p sgn) deltas

/-- The step-size limit enforcement for one delta (source lines 421-427):
`|δ| < min_step` (with `min_step > 0`) → the *randomly signed* minimum
step; `|δ| > max_step` (with `max_step` finite) → `sign(δ) · max_step`. -/
def clampStep (p : GDParams) (sgn : Bool) (d : ℚ) : ℚ :=
  if |d| < p.minStep ∧ 0 < p.minStep then sgnQ sgn * p.minStep
  else if |d| > p.maxStep ∧ p.maxStepInf = false then pySign d * p.maxStep
  else d

/-- The step-size limit pass `for ch, delta in deltas.items(): ...`
(key-by-key reassignment over distinct keys = a map over the list). -/
def clampPass (p : GDParams) (sgn : Bool) (deltas : List (ℕ × ℚ)) :
    List (ℕ × ℚ) :=
  deltas.map (fun e => (e.1, clampStep p sgn e.2))

/-- One step of the next-voltage loop `for ch in pixels.keys():` (source
lines 430-436): `new_v = next_voltages[ch] + deltas[ch]`, quadrant-
clamped, written back; dict reads default to `0` where the source would
raise `KeyError` (unreachable: active pixels always carry both keys). -/
def nextVUpd (lock : Bool) (deltas : List (ℕ × ℚ)) (acc : List (ℕ × ℚ))
    (ch : ℕ) : List (ℕ × ℚ) :=
  dset acc ch
    (lockClamp lock ((dlookup acc ch).getD 0 + (dlookup deltas ch).getD 0))

/-- The next-voltage pass over the currently active pixels.  Note that
entries of `next_voltages` belonging to evicted channels are *not*
removed — they simply stop being updated. -/
def nextVPass (lock : Bool) (pixels : List ℕ) (deltas : List (ℕ × ℚ))
    (nextV : List (ℕ × ℚ)) : List (ℕ × ℚ) :=
  pixels.foldl (nextVUpd lock deltas) nextV

/-- One iteration of the main mppt loop body (source lines 390-439),
entered when the guard held: draw the random sign, apply `next_voltages`
via `configure_dc` (the *whole* dict, stale entries included), measure
the active pixels, run the safety monitor, push the batch, compute
gradients, update and clamp the deltas, compute the next voltages, and
refresh `run_time` from the wall clock. -/
def gdStep (env : SmuEnv) (p : GDParams) (s : GDSt) : GDSt :=
  let sgn := env.sgn s.k
  let k1 := s.k + 1
  let trace1 := s.trace ++ [Call.configureDC s.nextV]
  let data := s.pixels.map (fun c => (c, env.meas k1 c))
  let k2 := k1 + 1
  let trace2 := trace1 ++ [Call.measureBatch s.pixels]
  let d := detect_short_circuits env ⟨data, s.pixels, trace2, k2⟩
  let m1 := d.data :: s.m
  let grads := compute_grad m1
  let deltas1 := gradPass p sgn grads s.deltas
  let deltas2 := clampPass p sgn deltas1
  let nextV1 := nextVPass s.lock d.pixels deltas2 s.nextV
  let rt := env.now d.k - s.t0g
  { s with
    pixels := d.pixels
    trace := d.trace
    k := d.k + 1
    nextV := nextV1
    deltas := deltas2
    m := m1
    runTime := rt
    iters := s.iters + 1 }

/-- The main mppt loop (source line 389): run while `not abort`,
`run_time < duration` and some pixels remain; fuel-bounded. -/
def gdLoop (env : SmuEnv) (p : GDParams) (dur : ℚ) :
    ℕ → GDSt → GDSt
  | 0, s => s
  | fuel + 1, s =>
    if env.abortAt s.iters = false ∧ s.runTime < dur ∧ s.pixels ≠ [] then
      gdLoop env p dur fuel (gdStep env p s)
    else s

/-- One iteration of a Snaith steady-state soak loop body: measure the
active pixels and run the safety monitor (`spos` bookkeeping is handled
by `runSoak`). -/
def soakStep (env : SmuEnv) (s : GDSt) : GDSt :=
  let data := s.pixels.map (fun c => (c, env.meas s.k c))
  let trace1 := s.trace ++ [Call.measureBatch s.pixels]
  let d := detect_short_circuits env ⟨data, s.pixels, trace1, s.k + 1⟩
  { s with pixels := d.pixels, trace := d.trace, k := d.k }

/-- A Snaith soak loop (source lines 308-315 and 455-462): run while the
local clock reads less than `soakT` past `t0l` and pixels remain;
fuel-bounded; each guard evaluation consumes one wall-clock read. -/
def soakLoop (env : SmuEnv) (t0l soakT : ℚ) : ℕ → GDSt → GDSt
  | 0, s => s
  | fuel + 1, s =>
    let tn := env.now s.k
    let s1 := { s with k := s.k + 1 }
    if tn - t0l < soakT ∧ s1.pixels ≠ [] then
      soakLoop env t0l soakT fuel (soakStep env s1)
    else s1

/-- A full Snaith soak (source lines 301-317 / 449-464): read the local
start time, run the soak loop, then `self.q.extend(spos)`.  `spos` is a
dict keyed by the pixels active at soak start, and `deque.extend` of a
dict iterates its *keys*, so the soak appends those channel numbers (not
the measurements) to `q`. -/
def runSoak (env : SmuEnv) (soakT : ℚ) (fuel : ℕ) (s : GDSt) : GDSt :=
  let startPixels := s.pixels
  let t0l := env.now s.k
  let s1 := { s with k := s.k + 1 }
  let s2 := soakLoop env t0l soakT fuel s1
  { s2 with q := s2.q ++ startPixels }

/-- The write-back of the most recent readings into `self.Vmpp` /
`self.Impp` at the end of `gradient_descent` (source lines 467-469). -/
def gdFinalize (s : GDSt) : GDSt :=
  match s.m with
  | [] => s
  | d0 :: _ =>
    { s with
      vmpp := d0.foldl (fun acc e => dset acc e.1 e.2.headI.v) s.vmpp
      impp := d0.foldl (fun acc e => dset acc e.1 e.2.headI.i) s.impp }

/-- The NPLC write at the head of `gradient_descent` (source lines
271-272). -/
def gdNplc (p : GDParams) (s0 : GDSt) : GDSt :=
  if p.nplc ≠ -1 then
    { s0 with trace := s0.trace ++ [Call.setNplc p.nplc] }
  else s0

/-- The bootstrap measurement of `gradient_descent` (source lines
329-333): measure the active pixels, run the safety monitor, and start
the measurement deque with the resulting batch. -/
def gdBootstrapMeas (env : SmuEnv) (s2 : GDSt) : GDSt :=
  let data := s2.pixels.map (fun c => (c, env.meas s2.k c))
  let trace1 := s2.trace ++ [Call.measureBatch s2.pixels]
  let d := detect_short_circuits env ⟨data, s2.pixels, trace1, s2.k + 1⟩
  { s2 with pixels := d.pixels, trace := d.trace, k := d.k, m := [d.data] }

/-- The seeding of `run_time` (against the *global* `self.t0`, source
line 335) and of the per-channel deltas (`delta_zero`) and next voltages
(quadrant-clamped `Vmpp + delta_zero`, source lines 340-351). -/
def gdSeed (env : SmuEnv) (p : GDParams) (s3 : GDSt) : GDSt :=
  let rt := env.now s3.k - s3.t0g
  let s4 := { s3 with runTime := rt, k := s3.k + 1 }
  { s4 with
    deltas := s4.pixels.map (fun c => (c, p.deltaZero))
    nextV := s4.pixels.map
      (fun c => (c, lockClamp s4.lock ((dlookup s4.vmpp c).getD 0 + p.deltaZero))) }

/-- `gradient_descent` (source lines 245-473): optionally set NPLC,
shrink `duration` by the soak times and pre-soak in Snaith mode, take the
bootstrap measurement, read `run_time`, seed the deltas and next
voltages, run the main loop, post-soak in Snaith mode, and write back the
final `Vmpp`/`Impp`. -/
def gradient_descent (env : SmuEnv) (p : GDParams) (fuel : ℕ)
    (s0 : GDSt) : GDSt :=
  let s1 := gdNplc p s0
  let dur := if p.snaith then p.duration - 15 - 3 else p.duration
  let s2 := if p.snaith then runSoak env 15 fuel s1 else s1
  let s5 := gdSeed env p (gdBootstrapMeas env s2)
  let s6 := gdLoop env p dur fuel s5
  let s7 := if p.snaith then runSoak env 3 fuel s6 else s6
  gdFinalize s7

/-- Continuation of a digit group that already started with a digit:
further digits, with single underscores allowed between digits
(CPython's `digitpart ::= digit (["_"] digit)*`), and the remainder. -/
def takeDigitsTail : List Char → List Char × List Char
  | [] => ([], [])
  | c :: rest =>
    if c.isDigit then
      let r := takeDigitsTail rest
      (c :: r.1, r.2)
    else if c = '_' then
      match rest with
      | d :: rest2 =>
        if d.isDigit then
          let r := takeDigitsTail rest2
          (d :: r.1, r.2)
        else ([], c :: rest)
      | [] => ([], [c])
    else ([], c :: rest)

/-- Longest digit-group prefix of a character list (it must start with a
digit; single underscores may occur between digits, as `float()`
accepts) and the remainder. -/
def takeDigits : List Char → List Char × List Char
  | [] => ([], [])
  | c :: rest =>
    if c.isDigit then
      let r := takeDigitsTail rest
      (c :: r.1, r.2)
    else ([], c :: rest)

/-- Natural number denoted by a digit list. -/
def natOfDigits (ds : List Char) : ℕ :=
  ds.foldl (fun a c => 10 * a + (c.toNat - 48)) 0

/-- Optional exponent suffix of a float literal (`e±ddd`), applied to the
mantissa; `none` when the remaining characters are not a valid suffix. -/
def pfExp (q : ℚ) : List Char → Option ℚ
  | [] => some q
  | c :: rest =>
    if c = 'e' ∨ c = 'E' then
      match rest with
      | '-' :: r2 =>
        let d := takeDigits r2
        if d.1 = [] ∨ d.2 ≠ [] then none
        else some (q / 10 ^ natOfDigits d.1)
      | '+' :: r2 =>
        let d := takeDigits r2
        if d.1 = [] ∨ d.2 ≠ [] then none
        else some (q * 10 ^ natOfDigits d.1)
      | _ =>
        let d := takeDigits rest
        if d.1 = [] ∨ d.2 ≠ [] then none
        else some (q * 10 ^ natOfDigits d.1)
    else none

/-- Unsigned float literal: digits, optional decimal point and fraction
digits (at least one digit overall), optional exponent. -/
def pfUnsigned (cs : List Char) : Option ℚ :=
  let d := takeDigits cs
  match d.2 with
  | '.' :: r2 =>
    let f := takeDigits r2
    if d.1 = [] ∧ f.1 = [] then none
    else pfExp ((natOfDigits d.1 : ℚ) + (natOfDigits f.1 : ℚ) / 10 ^ f.1.length) f.2
  | _ => if d.1 = [] then none else pfExp (natOfDigits d.1) d.2

/-- The value of a successful Python `float(s)` conversion: a finite
value, a signed infinity, or a NaN. -/
inductive PyVal where
  | fin (q : ℚ)
  | inf (neg : Bool)
  | nan
deriving DecidableEq

/-- Finite view of a parsed float.  The model's arithmetic is rational,
so the non-finite values have no numeric counterpart here and read as
`0`: a parameter string carrying `inf`/`nan` parses — and raises
nothing, exactly as in the source — but subsequent tracking arithmetic
on such a value lies outside this model's numeric domain, except for the
source's only non-finite-sensitive guard `max_step < float("inf")`,
which `PyVal.maxClampOff` captures exactly. -/
def PyVal.toRat : PyVal → ℚ
  | PyVal.fin q => q
  | PyVal.inf _ => 0
  | PyVal.nan => 0

/-- Whether the upper-clamp guard `max_step < float("inf")` (source line
425) is False for this parsed value: the case for `+inf` and for `nan`
(an IEEE comparison against NaN is False). -/
def PyVal.maxClampOff : PyVal → Bool
  | PyVal.inf false => true
  | PyVal.nan => true
  | _ => false

/-- The ASCII whitespace characters `float()` strips from both ends. -/
def pyWs (c : Char) : Bool :=
  c = ' ' ∨ c = '\t' ∨ c = '\n' ∨ c = '\r' ∨ c = '\x0b' ∨ c = '\x0c'

/-- Strip leading and trailing whitespace, as `float()` does. -/
def stripWs (cs : List Char) : List Char :=
  ((cs.dropWhile pyWs).reverse.dropWhile pyWs).reverse

/-- The sign-stripped body of a `float()` argument: the case-insensitive
spellings `inf`/`infinity`/`nan`, or an unsigned decimal literal. -/
def pyFloatCore (neg : Bool) (cs : List Char) : Option PyVal :=
  let low := cs.map Char.toLower
  if low = "inf".data ∨ low = "infinity".data then some (PyVal.inf neg)
  else if low = "nan".data then some PyVal.nan
  else (pfUnsigned cs).map (fun q => PyVal.fin (if neg then -q else q))

/-- Python `float(s)`: optional surrounding whitespace, optional sign,
then `inf`/`infinity`/`nan` (case-insensitive) or a decimal literal with
optional fraction, exponent and single underscores between digits;
`none` models the `ValueError` raised on anything else.  (Python
additionally accepts non-ASCII Unicode digit and whitespace characters;
no such string reaches this parser in this repository, and they are
outside this ASCII model.) -/
def pyFloat (s : String) : Option PyVal :=
  match stripWs s.data with
  | '-' :: rest => pyFloatCore true rest
  | '+' :: rest => pyFloatCore false rest
  | cs => pyFloatCore false cs

/-- Split a character list at the first occurrence of `://`; `none` when
the separator does not occur. -/
def findScheme : List Char → Option (List Char × List Char)
  | [] => none
  | ':' :: '/' :: '/' :: rest => some ([], rest)
  | c :: rest => (findScheme rest).map (fun p => (c :: p.1, p.2))

/-- `extra.split(sep="://", maxsplit=1)` (source line 190): algorithm
name, and the parameter string when the separator occurs (`none` models
the `IndexError` the source raises on `extra_split[1]` otherwise). -/
def splitScheme (s : String) : String × Option String :=
  match findScheme s.data with
  | none => (s, none)
  | some p => (String.mk p.1, some (String.mk p.2))

/-- Helper for `splitColon`: split on `:` accumulating the current field
in reverse. -/
def splitColonAux : List Char → List Char → List (List Char)
  | [], acc => [acc.reverse]
  | c :: rest, acc =>
    if c = ':' then acc.reverse :: splitColonAux rest []
    else splitColonAux rest (c :: acc)

/-- Python `params.split(":")` (so `"".split(":") = [""]`). -/
def splitColon (s : String) : List String :=
  (splitColonAux s.data []).map String.mk

/-- `[float(f) for f in params]` (source line 220): parse the fields left
to right; `none` models the `ValueError` raised at the first bad field. -/
def parseFloats : List String → Option (List PyVal)
  | [] => some []
  | t :: rest =>
    match pyFloat t, parseFloats rest with
    | some q, some qs => some (q :: qs)
    | _, _ => none

/-- An exception escaping `launch_tracker`. -/
inductive PyErr where
  | valueError (msg : String)
  | indexError
deriving DecidableEq

/-- Whether an optional exception is a `ValueError`. -/
def isValueError : Option PyErr → Bool
  | some (PyErr.valueError _) => true
  | _ => false

/-- Result of a `launch_tracker` run: the SMU call trace, the list `m` of
algorithm outputs (each the `q` deque of `gradient_descent`, which holds
channel keys — see `runSoak`), the bootstrap `ssvocs` records, the
exception if one was raised (with the trace up to that point), the
computed quadrant lock, the number of main-loop iterations executed and
the final `Vmpp` reference dict. -/
structure LTOut where
  trace : List Call
  m : List (List ℕ)
  ssvocs : Batch
  err : Option PyErr
  lock : Bool
  iters : ℕ
  vmpp : List (ℕ × ℚ)

/-- State after `launch_tracker`'s bootstrap phase (source lines
140-187), before the algorithm dispatch. -/
structure LTBoot where
  trace : List Call
  k : ℕ
  ssvocs : Batch
  voc : List (ℕ × ℚ)
  vmpp : List (ℕ × ℚ)
  lock : Bool
  t0g : ℚ

/-- The bootstrap phase of `launch_tracker` (source lines 140-187): start
the global timer, clamp `i_limit` to `absolute_current_limit` (the
clamped value is never used again), optionally set NPLC, measure `V_oc`
in high-impedance mode when unknown (recording `ssvocs`), seed `V_mpp` at
`0.7·V_oc` when unknown, configure and enable all channels at `V_mpp`,
and derive the quadrant lock from the sign of the first stored `V_oc`. -/
def ltBootstrap (env : SmuEnv) (acl nplc iLimit : ℚ) (pixels : List ℕ)
    (r : RefSt) : LTBoot :=
  let t0g := env.now 0
  let k0 : ℕ := 1
  let _iLim := if |iLimit| > |acl| then |acl| else iLimit
  let trace0 : List Call := if nplc ≠ -1 then [Call.setNplc nplc] else []
  let channels := pixels
  let b :=
    if r.voc = [] then
      let ssvocs : Batch := channels.map (fun c => (c, env.meas k0 c))
      let trace1 := trace0 ++
        [Call.enableOutput false channels, Call.measureBatch channels]
      let voc1 := (sortKeys ssvocs).foldl
        (fun acc e => dset acc e.1 (lastD e.2 default).v) r.voc
      (trace1, k0 + 1, ssvocs, voc1)
    else (trace0, k0, ([] : Batch), r.voc)
  let vmpp1 :=
    if r.vmpp = [] then (sortKeys b.2.2.2).map (fun e => (e.1, 7/10 * e.2))
    else r.vmpp
  let values := sortKeys vmpp1
  let trace2 := b.1 ++ [Call.configureDC values, Call.enableOutput true channels]
  let lock := decide (0 ≤ (b.2.2.2.headI).2)
  { trace := trace2, k := b.2.1, ssvocs := b.2.2.1, voc := b.2.2.2,
    vmpp := vmpp1, lock := lock, t0g := t0g }

/-- Build the initial `gradient_descent` state from the bootstrap. -/
def gdInit (boot : LTBoot) (pixels : List ℕ) : GDSt :=
  { pixels := pixels, trace := boot.trace, k := boot.k, q := [],
    nextV := [], deltas := [], m := [], runTime := 0, iters := 0,
    vmpp := boot.vmpp, impp := [], lock := boot.lock, t0g := boot.t0g }

/-- Package a finished `gradient_descent` run as the `launch_tracker`
result (`m.append(...)`, `return (m, ssvocs)`). -/
def ltFromGD (boot : LTBoot) (g : GDSt) : LTOut :=
  { trace := g.trace, m := [g.q], ssvocs := boot.ssvocs, err := none,
    lock := boot.lock, iters := g.iters, vmpp := g.vmpp }

/-- The algorithm dispatch of `launch_tracker` (source lines 189-243):
`gd`/`snaith` with an empty parameter string run `gradient_descent` with
its defaults; a non-empty parameter string must split on `:` into exactly
7 fields (else the descriptive `ValueError`) of floats (else the
`ValueError` from `float(f)`); any other algorithm name logs a warning
and does no tracking, leaving `m` empty. -/
def ltDispatch (env : SmuEnv) (fuel : ℕ) (boot : LTBoot)
    (pixels : List ℕ) (duration nplc : ℚ) (algo params : String) : LTOut :=
  if algo = "gd" ∨ algo = "snaith" then
    let snaith := algo = "snaith"
    if params = "" then
      ltFromGD boot
        (gradient_descent env (gdDefaults duration nplc snaith) fuel
          (gdInit boot pixels))
    else
      let ps := splitColon params
      if ps.length ≠ 7 then
        { trace := boot.trace, m := [], ssvocs := boot.ssvocs,
          err := some (PyErr.valueError
            "MPPT configuration failure, Usage: --mppt-params gd://[alpha]:[min_step]:[NPLC]:[delayms]:[max_step]:[momentum]:[delta_zero]"),
          lock := boot.lock, iters := 0, vmpp := boot.vmpp }
      else
        match parseFloats ps with
        | none =>
          { trace := boot.trace, m := [], ssvocs := boot.ssvocs,
            err := some (PyErr.valueError "could not convert string to float"),
            lock := boot.lock, iters := 0, vmpp := boot.vmpp }
        | some qs =>
          let p : GDParams :=
            { duration := duration,
              alpha := (qs.getD 0 (PyVal.fin 0)).toRat,
              minStep := (qs.getD 1 (PyVal.fin 0)).toRat,
              nplc := (qs.getD 2 (PyVal.fin 0)).toRat,
              snaith := snaith,
              delayMs := (qs.getD 3 (PyVal.fin 0)).toRat,
              maxStep := (qs.getD 4 (PyVal.fin 0)).toRat,
              maxStepInf := (qs.getD 4 (PyVal.fin 0)).maxClampOff,
              momentum := (qs.getD 5 (PyVal.fin 0)).toRat,
              deltaZero := (qs.getD 6 (PyVal.fin 0)).toRat }
          ltFromGD boot (gradient_descent env p fuel (gdInit boot pixels))
  else
    { trace := boot.trace, m := [], ssvocs := boot.ssvocs, err := none,
      lock := boot.lock, iters := 0, vmpp := boot.vmpp }

/-- `launch_tracker` (source lines 124-243): bootstrap, split the
algorithm specification string on `://` (no separator models the
source's `IndexError` on `extra_split[1]`), dispatch, and return. -/
def launch_tracker (env : SmuEnv) (acl : ℚ) (duration nplc iLimit : ℚ)
    (extra : String) (pixels : List ℕ) (r : RefSt) (fuel : ℕ) : LTOut :=
  let boot := ltBootstrap env acl nplc iLimit pixels r
  match splitScheme extra with
  | (_, none) =>
    { trace := boot.trace, m := [], ssvocs := boot.ssvocs,
      err := some PyErr.indexError, lock := boot.lock, iters := 0,
      vmpp := boot.vmpp }
  | (algo, some params) =>
    ltDispatch env fuel boot pixels duration nplc algo params

/-- The suffix of a call trace strictly after the first call satisfying
`p` (used to speak about what happens after an eviction). -/
def callsAfter (p : Call → Bool) : List Call → List Call
  | [] => []
  | c :: rest => if p c then rest else callsAfter p rest

/-- Does this call disable channel `ch`'s output (the Safety Monitor's
eviction signature)? -/
def isEvictionOf (ch : ℕ) : Call → Bool
  | Call.enableOutput false chs => chs.any (fun x => x = ch)
  | _ => false

/-- Does this `configure_dc` call carry a setpoint for channel `ch`? -/
def configCarries (ch : ℕ) : Call → Bool
  | Call.configureDC vals => (dlookup vals ch).isSome
  | _ => false

/-- Is this an `enable_output(False, …)` call? -/
def isDisableCall : Call → Bool
  | Call.enableOutput false _ => true
  | _ => false

/-- Is this an `enable_output(True, …)` call reaching channel `ch`? -/
def isEnableCallOn (ch : ℕ) : Call → Bool
  | Call.enableOutput true chs => chs.any (fun x => x = ch)
  | _ => false

/-- The per-value quadrant-lock bound: nonnegative under a positive lock,
nonpositive under a negative lock. -/
def lockVal (lock : Bool) (x : ℚ) : Prop :=
  (lock = true → 0 ≤ x) ∧ (lock = false → x ≤ 0)

/-- Quadrant-lock conformance of one SMU call: every setpoint of a
`configure_dc` is `≥ 0` under a positive lock and `≤ 0` under a negative
lock; other calls are unconstrained. -/
def lockOK (lock : Bool) : Call → Prop
  | Call.configureDC vals => ∀ e ∈ vals, lockVal lock e.2
  | _ => True

/-- Eviction-permanence conformance of one SMU call with respect to an
evicted channel `ch`: a main-loop batch measurement never includes `ch`
and an `enable_output(True, …)` never reaches `ch`; `configure_dc` and
the diagnostic probes are unconstrained. -/
def avoids (ch : ℕ) : Call → Prop
  | Call.measureBatch chs => ch ∉ chs
  | Call.enableOutput en chs => en = true → ch ∉ chs
  | _ => True

/-- An environment whose measurements never report the board-level
overcurrent status nor the per-channel current threshold status. -/
def NoShort (env : SmuEnv) : Prop :=
  ∀ k c, ∀ r ∈ env.meas k c, r.status ≠ 1 ∧ r.status ≠ 2

/-- A deterministic stub SMU: every measurement reads
`(0.5 V, −10 mA, t = 0, status 0)`, the wall clock advances one second per
read, the random sign is always `+1` and `abort` is never set. -/
def envBase : SmuEnv :=
  { meas := fun _ _ => [⟨1/2, -1/100, 0, 0⟩]
    probe := fun _ _ => 0
    now := fun k => k
    sgn := fun _ => true
    abortAt := fun _ => false }

/-- `envBase` with the `abort` flag permanently set. -/
def envAbortAll : SmuEnv := { envBase with abortAt := fun _ => true }

/-- A stub SMU that reports status `1` (current over threshold) for
channel `0` exactly at the main-loop measurement of the first
gradient-descent iteration (oracle query 4), and a frozen wall clock so
the loop keeps running. -/
def envEvict : SmuEnv :=
  { meas := fun k c =>
      if k = 4 ∧ c = 0 then [⟨1/2, 1/100, 1, 1⟩] else [⟨(1 + k)/2, -1/100, k, 0⟩]
    probe := fun _ _ => 0
    now := fun _ => 1
    sgn := fun _ => true
    abortAt := fun _ => false }

/-- Reference state with a known `V_oc = 0` on channel 0 (a legal
boundary input: the quadrant lock becomes positive). -/
def refVoc0 : RefSt := { RefSt.empty with voc := [(0, 0)] }

/-- Reference state with a known `V_oc = 0.7 V` on channel 0. -/
def refVoc07 : RefSt := { RefSt.empty with voc := [(0, 7/10)] }

/-- Reference state with known `V_oc = 0.7 V` on channels 0 and 1. -/
def refVoc2 : RefSt := { RefSt.empty with voc := [(0, 7/10), (1, 7/10)] }

/-- C1 counterexample.  The claim says that under a positive lock
(first channel's `V_oc ≥ 0`) *every* voltage commanded via
`configure_dc`, including the initial setpoints at `V_mpp`, is `> 0`,
with `1e-4` substituted for any value that would be `< 0`.  With
`V_oc = 0` the lock is positive, `V_mpp` is seeded at `0.7·V_oc = 0`, and
the initial `configure_dc` (issued before the lock is even computed, and
unclamped) commands exactly `0`, which is not `> 0` and was not
substituted. -/
theorem c1_counterexample :
    (launch_tracker envAbortAll (1/10) 30 (-1) (1/10) "gd://" [0] refVoc0 10).lock
        = true ∧
    ((launch_tracker envAbortAll (1/10) 30 (-1) (1/10) "gd://" [0] refVoc0 10).trace.any
        (fun c => c == Call.configureDC [(0, 0)])) = true ∧
    ¬ ((0 : ℚ) > 0) :=
  ⟨rfl, rfl, by norm_num⟩

/-- C2 counterexample.  Channel 0 is evicted (status 1) during the first
gradient-descent iteration, yet the `configure_dc` of the following
iteration still carries a setpoint for channel 0: the source never prunes
`next_voltages`, so evicted channels keep receiving `configure_dc`
setpoints, contradicting "zero further configure_dc setpoints". -/
theorem c2_counterexample :
    ((launch_tracker envEvict (1/10) 30 (-1) (1/10) "gd://" [0, 1] refVoc2 2).trace.any
        (isEvictionOf 0)) = true ∧
    ((callsAfter (isEvictionOf 0)
        (launch_tracker envEvict (1/10) 30 (-1) (1/10) "gd://" [0, 1] refVoc2 2).trace).any
        (configCarries 0)) = true :=
  ⟨rfl, rfl⟩

/-- C3 counterexample.  Two sequential light curves whose maximum powers
are `P_max = −1.2e-3` then `−8.0e-4` (the spec's own scenario).  The
source compares *signed* values (`Pmax > self.Pmax[ch]`), and
`−8.0e-4 > −1.2e-3`, so the stored tuple is replaced: the stored `P_max`
becomes `−8.0e-4` (its absolute value decreased) and `V_mpp` changes from
`1` to `2`, contradicting the claim. -/
theorem c3_counterexample :
    (regCh (regCh ChSt.empty [⟨1, 3/2500, 0, 0⟩]) [⟨2, 1/2500, 1, 0⟩]).pmax
        = some (-(1/1250)) ∧
    (regCh ChSt.empty [⟨1, 3/2500, 0, 0⟩]).pmax = some (-(3/2500)) ∧
    (regCh (regCh ChSt.empty [⟨1, 3/2500, 0, 0⟩]) [⟨2, 1/2500, 1, 0⟩]).vmpp
        = some 2 ∧
    |(-(1/1250) : ℚ)| < |(-(3/2500) : ℚ)| :=
  ⟨rfl, rfl, rfl, by rw [abs_of_nonpos (by norm_num), abs_of_nonpos (by norm_num)]; norm_num⟩

/-- C4 (code bug).  A `snaith://` run with `duration = 30` and a clock
advancing one second per read: the pre-soak holds for its full 15 s, but
`run_time` is measured from `launch_tracker`'s start (`self.t0`), so at
the main loop's entry it already exceeds the adjusted budget
`30 − 15 − 3 = 12` and the gradient-descent core executes **zero**
iterations, not the 12 seconds the spec requires (the pre-soak is
subtracted from the budget *and* counted in the elapsed time). -/
theorem c4_snaith_core_starved :
    (launch_tracker envBase (1/10) 30 (-1) (1/10) "snaith://" [0] refVoc07 50).iters
        = 0 ∧
    ((launch_tracker envBase (1/10) 30 (-1) (1/10) "snaith://" [0] refVoc07 50).trace.any
        (fun c => c == Call.measureBatch [0])) = true :=
  ⟨rfl, rfl⟩

/-- C5 counterexample.  The claim says the clamp keeps the sign of `δ`.
With the default parameters (`min_step = 0.002`), a pre-clamp delta of
`−0.001` and a positive random draw, the minimum-step clamp of the source
uses the *random* sign (`some_sign * min_step`), producing `+0.002`: the
sign of `δ` is not preserved. -/
theorem c5_counterexample :
    clampPass (gdDefaults 30 (-1) false) true [(0, -(1/1000))] = [(0, 1/500)] ∧
    (-(1/1000) : ℚ) < 0 ∧ (0 : ℚ) < 1/500 :=
  ⟨rfl, by norm_num, by norm_num⟩

/-- C6 counterexample.  A sweep consisting of one dissipative record
(`V = 1`, `I = 1`, so `V·I = 1 > 0`): `register_curve`'s inspector takes
the argmax of `−V·I` over *all* records, so it returns
`P_max = −1` at index 0, whose record does not lie in the generation
quadrant (`V·I ≤ 0`), contradicting the claim for sweeps with no
generation-quadrant record. -/
theorem c6_counterexample :
    inspectCh [⟨1, 1, 0, 0⟩] = (-1, 1, 1, 0, 1, 1, 0) ∧
    ¬ ((1 : ℚ) * 1 ≤ 0) :=
  ⟨rfl, by norm_num⟩

/-- C7 counterexample.  A cancelled run (`abort` set from the start, with
`V_oc` known): `launch_tracker` returns with the channel outputs still
enabled — the trace contains the `enable_output(True, …)` but no
`enable_output(False, …)` whatsoever, so outputs are *not* disabled
before `(traces, ssvocs)` is returned. -/
theorem c7_counterexample :
    ((launch_tracker envAbortAll (1/10) 30 (-1) (1/10) "gd://" [0] refVoc07 10).trace.any
        isDisableCall) = false ∧
    ((launch_tracker envAbortAll (1/10) 30 (-1) (1/10) "gd://" [0] refVoc07 10).trace.any
        (isEnableCallOn 0)) = true :=
  ⟨rfl, rfl⟩

/-- C8 counterexample.  A malformed parameter string (`gd://1:2:3`) with
unknown `V_oc` does raise the descriptive `ValueError`, but not *at
entry*: the bootstrap has already disabled outputs for the high-impedance
probe, measured, configured `V_mpp` and enabled the outputs (the trace
contains the `enable_output(True, …)`) before the parameter string is
even parsed. -/
theorem c8_counterexample :
    isValueError
        (launch_tracker envBase (1/10) 30 (-1) (1/10) "gd://1:2:3" [0] RefSt.empty 10).err
        = true ∧
    ((launch_tracker envBase (1/10) 30 (-1) (1/10) "gd://1:2:3" [0] RefSt.empty 10).trace.any
        (isEnableCallOn 0)) = true :=
  ⟨rfl, rfl⟩

/-- C9 counterexample.  `basic://7:10` does not run any
perturb-and-observe tracker: the algorithm list of this source version is
`["gd", "snaith"]` (`really_dumb_tracker` is commented out), so `basic`
falls into the warning branch, no tracking SMU operation is issued beyond
the bootstrap, and the returned trace list `m` is empty. -/
theorem c9_counterexample :
    (launch_tracker envAbortAll (1/10) 30 (-1) (1/10) "basic://7:10" [0] refVoc07 10).m
        = [] ∧
    (launch_tracker envAbortAll (1/10) 30 (-1) (1/10) "basic://7:10" [0] refVoc07 10).trace
        = [Call.configureDC [(0, 49/100)], Call.enableOutput true [0]] ∧
    (launch_tracker envAbortAll (1/10) 30 (-1) (1/10) "basic://7:10" [0] refVoc07 10).err
        = none :=
  ⟨rfl, rfl, rfl⟩

theorem le_maxVal (l : List ℚ) (a : ℚ) (h : a ∈ l) : a ≤ maxVal l := by
  induction l with
  | nil => cases h
  | cons x xs ih =>
    cases xs with
    | nil =>
      rcases List.mem_singleton.mp h with rfl
      simp [maxVal]
    | cons y rest =>
      rcases List.mem_cons.mp h with rfl | hmem
      · simp only [maxVal]
        exact le_max_left _ _
      · simp only [maxVal]
        exact le_trans (ih hmem) (le_max_right _ _)

theorem argmaxIdx_get? (l : List ℚ) (h : l ≠ []) :
    l.get? (argmaxIdx l) = some (maxVal l) := by
  induction l with
  | nil => exact absurd rfl h
  | cons x xs ih =>
    cases xs with
    | nil => simp [argmaxIdx, maxVal]
    | cons y rest =>
      by_cases hm : maxVal (y :: rest) ≤ x
      · simp [argmaxIdx, maxVal, hm, max_eq_left hm]
      · have hx : x ≤ maxVal (y :: rest) := le_of_not_le hm
        simp only [argmaxIdx, if_neg hm, maxVal, List.get?_cons_succ]
        rw [ih (by simp), max_eq_right hx]

/-- C6 (amended): for every sweep containing at least one
generation-quadrant record (`V·I ≤ 0`), the returned `P_max` and
`index_of_max` identify a record of the generation quadrant whose `|V·I|`
is maximal among the generation-quadrant records, and the returned
`V_mpp`/`I_mpp` are that record's voltage and current.  (The source takes
the argmax of `−V·I` over *all* records, which coincides with the claim
exactly when a generation record exists; the counterexample shows the
all-dissipative case.) -/
theorem c6_generation_quadrant_amended (recs : List MRec) (r0 : MRec)
    (hr0 : r0 ∈ recs) (hgen : r0.v * r0.i ≤ 0) :
    ∃ r : MRec, recs.get? (inspectCh recs).2.2.2.1 = some r ∧
      r.v * r.i ≤ 0 ∧
      (inspectCh recs).1 = -(r.v * r.i) ∧
      (inspectCh recs).2.1 = r.v ∧
      (inspectCh recs).2.2.1 = r.i ∧
      ∀ r2 ∈ recs, r2.v * r2.i ≤ 0 → |r2.v * r2.i| ≤ |r.v * r.i| := by
  have hne : recs ≠ [] := by
    intro h
    subst h
    cases hr0
  have hpne : recs.map (fun r => r.v * r.i * (-1)) ≠ [] := by
    cases recs with
    | nil => exact absurd rfl hne
    | cons a l => simp
  have hidx := argmaxIdx_get? (recs.map (fun r => r.v * r.i * (-1))) hpne
  rw [List.get?_map] at hidx
  cases hrec : recs.get? (argmaxIdx (recs.map (fun r => r.v * r.i * (-1)))) with
  | none =>
    rw [hrec] at hidx
    simp at hidx
  | some r =>
    rw [hrec] at hidx
    simp only [Option.map_some', Option.some.injEq] at hidx
    have hmax0 : r0.v * r0.i * (-1) ≤ maxVal (recs.map (fun r => r.v * r.i * (-1))) :=
      le_maxVal _ _ (List.mem_map_of_mem _ hr0)
    have hr_nonneg : 0 ≤ r.v * r.i * (-1) := by
      rw [hidx]
      have : 0 ≤ r0.v * r0.i * (-1) := by nlinarith
      linarith
    have hrgen : r.v * r.i ≤ 0 := by nlinarith
    refine ⟨r, ?_, hrgen, ?_, ?_, ?_, ?_⟩
    · simp only [inspectCh]
      exact hrec
    · simp only [inspectCh]
      rw [List.getD_eq_get?, List.get?_map, hrec]
      simp only [Option.map_some', Option.getD_some]
      ring
    · simp only [inspectCh]
      rw [List.getD_eq_get?, List.get?_map, hrec]
      simp
    · simp only [inspectCh]
      rw [List.getD_eq_get?, List.get?_map, hrec]
      simp
    · intro r2 h2 hgen2
      have h2m : r2.v * r2.i * (-1) ≤ maxVal (recs.map (fun r => r.v * r.i * (-1))) :=
        le_maxVal _ _ (List.mem_map_of_mem _ h2)
      rw [abs_of_nonpos hgen2, abs_of_nonpos hrgen]
      rw [← hidx] at h2m
      linarith

/-- C6 witness: the amended theorem applied to a one-record generation
sweep (`V = 1`, `I = −1`). -/
theorem c6_generation_quadrant_witness :
    ∃ r : MRec, ([⟨1, -1, 0, 0⟩] : List MRec).get?
        (inspectCh [⟨1, -1, 0, 0⟩]).2.2.2.1 = some r ∧
      r.v * r.i ≤ 0 ∧
      (inspectCh [⟨1, -1, 0, 0⟩]).1 = -(r.v * r.i) ∧
      (inspectCh [⟨1, -1, 0, 0⟩]).2.1 = r.v ∧
      (inspectCh [⟨1, -1, 0, 0⟩]).2.2.1 = r.i ∧
      ∀ r2 ∈ ([⟨1, -1, 0, 0⟩] : List MRec), r2.v * r2.i ≤ 0 →
        |r2.v * r2.i| ≤ |r.v * r.i| :=
  c6_generation_quadrant_amended [⟨1, -1, 0, 0⟩] ⟨1, -1, 0, 0⟩ (by decide)
    (by decide)

/-- Growth relation on optional stored powers: whatever is stored may
only be replaced by something at least as large (signed). -/
def pmLE (a b : Option ℚ) : Prop :=
  ∀ x, a = some x → ∃ y, b = some y ∧ x ≤ y

theorem pmLE_refl (a : Option ℚ) : pmLE a a :=
  fun x hx => ⟨x, hx, le_refl x⟩

theorem pmLE_trans {a b c : Option ℚ} (h1 : pmLE a b) (h2 : pmLE b c) :
    pmLE a c := by
  intro x hx
  rcases h1 x hx with ⟨y, hy, hxy⟩
  rcases h2 y hy with ⟨z, hz, hyz⟩
  exact ⟨z, hz, le_trans hxy hyz⟩

theorem chUpdate_not_exceed (t : ChSt) (recs : List MRec) (p0 : ℚ)
    (ht : t.pmax = some p0) (hle : (inspectCh recs).1 ≤ p0) :
    regCh t recs = t := by
  simp [regCh, chUpdate, ht, not_lt.mpr hle]

theorem chUpdate_exceed (t : ChSt) (recs : List MRec) (p0 : ℚ)
    (ht : t.pmax = some p0) (hlt : p0 < (inspectCh recs).1) :
    (regCh t recs).pmax = some (inspectCh recs).1 ∧
    (regCh t recs).vmpp = some (inspectCh recs).2.1 ∧
    (regCh t recs).impp = some (inspectCh recs).2.2.1 ∧
    (regCh t recs).mmpp = some ((inspectCh recs).2.1, (inspectCh recs).2.2.1,
      (inspectCh recs).2.2.2.2.2.2) := by
  by_cases hv : minVal (recs.map (fun r => r.v)) ≤ 0 ∧
      0 ≤ maxVal (recs.map (fun r => r.v)) <;>
    by_cases hi : minVal (recs.map (fun r => r.i)) ≤ 0 ∧
        0 ≤ maxVal (recs.map (fun r => r.i)) <;>
      simp [regCh, chUpdate, ht, hlt, hv, hi]

theorem chUpdate_fresh (t : ChSt) (recs : List MRec) (ht : t.pmax = none) :
    (regCh t recs).pmax = some (inspectCh recs).1 := by
  by_cases hv : minVal (recs.map (fun r => r.v)) ≤ 0 ∧
      0 ≤ maxVal (recs.map (fun r => r.v)) <;>
    by_cases hi : minVal (recs.map (fun r => r.i)) ≤ 0 ∧
        0 ≤ maxVal (recs.map (fun r => r.i)) <;>
      simp [regCh, chUpdate, ht, hv, hi]

theorem regCh_pmax_mono (s : ChSt) (recs : List MRec) :
    pmLE s.pmax (regCh s recs).pmax := by
  intro x hx
  by_cases hlt : x < (inspectCh recs).1
  · exact ⟨_, (chUpdate_exceed s recs x hx hlt).1, le_of_lt hlt⟩
  · rw [chUpdate_not_exceed s recs x hx (le_of_not_lt hlt)]
    exact ⟨x, hx, le_refl x⟩

theorem foldl_regCh_mono (curves : List (List MRec)) (s : ChSt) :
    pmLE s.pmax ((curves.foldl regCh s).pmax) := by
  induction curves generalizing s with
  | nil => exact pmLE_refl _
  | cons c cs ih =>
    exact pmLE_trans (regCh_pmax_mono s c) (ih (regCh s c))

/-- C3 (amended): for every channel, across any sequence of light
`register_curve` calls the stored `P_max` is monotone non-decreasing in
its *signed* value (not in absolute value: the source compares
`Pmax > self.Pmax[ch]` signed, see the counterexample); the stored tuple
`(V_mpp, I_mpp, P_max, M_mpp)` is replaced exactly when the new curve's
maximum `−V·I` strictly exceeds the stored value (or none is stored), and
the state is left entirely unchanged otherwise. -/
theorem c3_monotone_reference_amended (s : ChSt) (curves : List (List MRec))
    (t : ChSt) (recs : List MRec) (p0 : ℚ) (ht : t.pmax = some p0) :
    pmLE s.pmax ((curves.foldl regCh s).pmax) ∧
    ((inspectCh recs).1 ≤ p0 → regCh t recs = t) ∧
    (p0 < (inspectCh recs).1 →
      (regCh t recs).pmax = some (inspectCh recs).1 ∧
      (regCh t recs).vmpp = some (inspectCh recs).2.1 ∧
      (regCh t recs).impp = some (inspectCh recs).2.2.1 ∧
      (regCh t recs).mmpp = some ((inspectCh recs).2.1, (inspectCh recs).2.2.1,
        (inspectCh recs).2.2.2.2.2.2)) :=
  ⟨foldl_regCh_mono curves s,
   fun hle => chUpdate_not_exceed t recs p0 ht hle,
   fun hlt => chUpdate_exceed t recs p0 ht hlt⟩

/-- C3 witness: the amended theorem applied to the spec's two-curve
scenario (stored `P_max = −1.2e-3`, new curve with `P_max = −8.0e-4`,
which *is* a signed increase, so the second branch replaces the tuple). -/
theorem c3_monotone_reference_witness :
    pmLE ChSt.empty.pmax
      (([[⟨1, 3/2500, 0, 0⟩], [⟨2, 1/2500, 1, 0⟩]].foldl regCh ChSt.empty).pmax) ∧
    ((inspectCh [⟨2, 1/2500, 1, 0⟩]).1 ≤ -(3/2500) →
      regCh (regCh ChSt.empty [⟨1, 3/2500, 0, 0⟩]) [⟨2, 1/2500, 1, 0⟩]
        = regCh ChSt.empty [⟨1, 3/2500, 0, 0⟩]) ∧
    (-(3/2500) < (inspectCh [⟨2, 1/2500, 1, 0⟩]).1 →
      (regCh (regCh ChSt.empty [⟨1, 3/2500, 0, 0⟩]) [⟨2, 1/2500, 1, 0⟩]).pmax
          = some (inspectCh [⟨2, 1/2500, 1, 0⟩]).1 ∧
      (regCh (regCh ChSt.empty [⟨1, 3/2500, 0, 0⟩]) [⟨2, 1/2500, 1, 0⟩]).vmpp
          = some (inspectCh [⟨2, 1/2500, 1, 0⟩]).2.1 ∧
      (regCh (regCh ChSt.empty [⟨1, 3/2500, 0, 0⟩]) [⟨2, 1/2500, 1, 0⟩]).impp
          = some (inspectCh [⟨2, 1/2500, 1, 0⟩]).2.2.1 ∧
      (regCh (regCh ChSt.empty [⟨1, 3/2500, 0, 0⟩]) [⟨2, 1/2500, 1, 0⟩]).mmpp
          = some ((inspectCh [⟨2, 1/2500, 1, 0⟩]).2.1,
            (inspectCh [⟨2, 1/2500, 1, 0⟩]).2.2.1,
            (inspectCh [⟨2, 1/2500, 1, 0⟩]).2.2.2.2.2.2)) :=
  c3_monotone_reference_amended ChSt.empty
    [[⟨1, 3/2500, 0, 0⟩], [⟨2, 1/2500, 1, 0⟩]]
    (regCh ChSt.empty [⟨1, 3/2500, 0, 0⟩]) [⟨2, 1/2500, 1, 0⟩]
    (-(3/2500)) (by decide)

theorem dlookup_dset_self {α : Type} (l : List (ℕ × α)) (k : ℕ) (v : α) :
    dlookup (dset l k v) k = some v := by
  induction l with
  | nil => simp [dset, dlookup]
  | cons e rest ih =>
    by_cases h : e.1 = k
    · simp [dset, h, dlookup]
    · simp [dset, h, dlookup, ih]

theorem dlookup_dset_ne {α : Type} (l : List (ℕ × α)) (k k' : ℕ) (v : α)
    (h : k' ≠ k) : dlookup (dset l k v) k' = dlookup l k' := by
  induction l with
  | nil => simp [dset, dlookup, Ne.symm h]
  | cons e rest ih =>
    by_cases he : e.1 = k
    · subst he
      simp [dset, dlookup, Ne.symm h]
    · simp only [dset, if_neg he]
      by_cases he' : e.1 = k'
      · simp [dlookup, he']
      · simp [dlookup, he', ih]

theorem dlookup_mem {α : Type} (l : List (ℕ × α)) (k : ℕ) (a : α)
    (h : dlookup l k = some a) : (k, a) ∈ l := by
  induction l with
  | nil => simp [dlookup] at h
  | cons e rest ih =>
    by_cases he : e.1 = k
    · simp only [dlookup, if_pos he, Option.some.injEq] at h
      subst h
      have hke : (k, e.2) = e := by rw [← he]
      rw [hke]
      exact List.mem_cons_self _ _
    · simp only [dlookup, if_neg he] at h
      exact List.mem_cons_of_mem _ (ih h)

theorem dlookup_keymap {α β : Type} (F : ℕ → α → β) (l : List (ℕ × α))
    (ch : ℕ) :
    dlookup (l.map (fun e => (e.1, F e.1 e.2))) ch
      = (dlookup l ch).map (F ch) := by
  induction l with
  | nil => simp [dlookup]
  | cons e rest ih =>
    by_cases h : e.1 = ch
    · simp [dlookup, h]
    · simp [dlookup, h, ih]

theorem dlookup_gradPass_not_mem (p : GDParams) (sgn : Bool)
    (grads : List (ℕ × Option ℚ)) (deltas : List (ℕ × ℚ)) (ch : ℕ)
    (h : ch ∉ grads.map Prod.fst) :
    dlookup (gradPass p sgn grads deltas) ch = dlookup deltas ch := by
  induction grads generalizing deltas with
  | nil => rfl
  | cons g gs ih =>
    simp only [List.map_cons, List.mem_cons, not_or] at h
    simp only [gradPass, List.foldl_cons]
    rw [show List.foldl (gradUpd p sgn) (gradUpd p sgn deltas g) gs
        = gradPass p sgn gs (gradUpd p sgn deltas g) from rfl]
    rw [ih _ h.2]
    simp only [gradUpd]
    rw [dlookup_dset_ne _ _ _ _ h.1]

theorem dlookup_gradPass (p : GDParams) (sgn : Bool)
    (grads : List (ℕ × Option ℚ)) (deltas : List (ℕ × ℚ)) (ch : ℕ)
    (gv : Option ℚ) (dprev : ℚ)
    (hnd : (grads.map Prod.fst).Nodup) (hmem : (ch, gv) ∈ grads)
    (hd : dlookup deltas ch = some dprev) :
    dlookup (gradPass p sgn grads deltas) ch
      = some (gradVal p sgn gv dprev) := by
  induction grads generalizing deltas with
  | nil => cases hmem
  | cons g gs ih =>
    simp only [List.map_cons, List.nodup_cons] at hnd
    simp only [gradPass, List.foldl_cons]
    rw [show List.foldl (gradUpd p sgn) (gradUpd p sgn deltas g) gs
        = gradPass p sgn gs (gradUpd p sgn deltas g) from rfl]
    rcases List.mem_cons.mp hmem with heq | hmem2
    · subst heq
      rw [dlookup_gradPass_not_mem p sgn gs _ ch hnd.1]
      simp [gradUpd, hd, dlookup_dset_self]
    · have hne : ch ≠ g.1 := by
        intro hEq
        exact hnd.1 (hEq ▸ List.mem_map_of_mem Prod.fst hmem2)
      refine ih _ hnd.2 hmem2 ?_
      simp only [gradUpd]
      rw [dlookup_dset_ne _ _ _ _ hne]
      exact hd

theorem dlookup_clampPass (p : GDParams) (sgn : Bool)
    (deltas : List (ℕ × ℚ)) (ch : ℕ) :
    dlookup (clampPass p sgn deltas) ch
      = (dlookup deltas ch).map (clampStep p sgn) := by
  induction deltas with
  | nil => simp [clampPass, dlookup]
  | cons e rest ih =>
    by_cases h : e.1 = ch
    · simp [clampPass, dlookup, h]
    · simp only [clampPass, List.map_cons, dlookup, if_neg h]
      exact ih

/-- C5 (amended): in every gradient-descent iteration, for a channel
present in both of the two most recent batches, the composite effect of
the gradient pass and the step-limit pass is:
`g = (V₀·I₀ − V₁·I₁)/(V₀ − V₁)/(t₀ − t₁)` and
`δ = clamp(−α·g + μ·δ_prev)` when `V₀ ≠ V₁`, and
`δ = clamp(±min_step)` (`1e-4` when `min_step = 0`) with the iteration's
*random* sign when `V₀ = V₁`; the clamp (`clampStep`) raises `|δ|` to
`min_step` using the random sign (not `sign δ` — see the counterexample)
and lowers it to `max_step` preserving the sign of `δ`. -/
theorem c5_step_computation_amended (p : GDParams) (sgn : Bool)
    (d0 d1 : Batch) (rest : List Batch) (deltas : List (ℕ × ℚ)) (ch : ℕ)
    (chd0 chd1 : List MRec) (dprev : ℚ)
    (hnd : (d0.map Prod.fst).Nodup)
    (h0 : dlookup d0 ch = some chd0) (h1 : dlookup d1 ch = some chd1)
    (hd : dlookup deltas ch = some dprev) :
    dlookup (clampPass p sgn
        (gradPass p sgn (compute_grad (d0 :: d1 :: rest)) deltas)) ch =
      some (clampStep p sgn
        (if chd0.headI.v = chd1.headI.v then
          sgnQ sgn * (if p.minStep = 0 then 1/10000 else p.minStep)
        else
          -1 * p.alpha *
            ((chd0.headI.v * chd0.headI.i - chd1.headI.v * chd1.headI.i) /
              (chd0.headI.v - chd1.headI.v) / (chd0.headI.t - chd1.headI.t)) +
            p.momentum * dprev)) := by
  have hcg : dlookup (compute_grad (d0 :: d1 :: rest)) ch
      = some (gradOf d1 ch chd0) := by
    rw [show compute_grad (d0 :: d1 :: rest)
        = d0.map (fun e => (e.1, gradOf d1 e.1 e.2)) from rfl]
    rw [dlookup_keymap, h0]
    rfl
  have hnd2 : ((compute_grad (d0 :: d1 :: rest)).map Prod.fst).Nodup := by
    rw [show compute_grad (d0 :: d1 :: rest)
        = d0.map (fun e => (e.1, gradOf d1 e.1 e.2)) from rfl]
    rw [List.map_map]
    exact hnd
  have hmem := dlookup_mem _ _ _ hcg
  rw [dlookup_clampPass,
    dlookup_gradPass p sgn _ deltas ch (gradOf d1 ch chd0) dprev hnd2 hmem hd]
  by_cases hv : chd0.headI.v = chd1.headI.v <;>
    simp [gradOf, gradVal, h1, hv]

/-- C5 witness: the amended theorem applied at a concrete iteration
(`V₀ = 1, I₀ = −1, t₀ = 1`, `V₁ = 0, I₁ = 0, t₁ = 0`, `δ_prev = 1/100`,
default parameters). -/
theorem c5_step_computation_witness :
    dlookup (clampPass (gdDefaults 30 (-1) false) true
        (gradPass (gdDefaults 30 (-1) false) true
          (compute_grad ([(0, [⟨1, -1, 1, 0⟩])] :: [(0, [⟨0, 0, 0, 0⟩])] :: []))
          [(0, 1/100)])) 0 =
      some (clampStep (gdDefaults 30 (-1) false) true
        (if ([⟨1, -1, 1, 0⟩] : List MRec).headI.v
            = ([⟨0, 0, 0, 0⟩] : List MRec).headI.v then
          sgnQ true * (if (gdDefaults 30 (-1) false).minStep = 0
            then 1/10000 else (gdDefaults 30 (-1) false).minStep)
        else
          -1 * (gdDefaults 30 (-1) false).alpha *
            ((([⟨1, -1, 1, 0⟩] : List MRec).headI.v *
                ([⟨1, -1, 1, 0⟩] : List MRec).headI.i -
              ([⟨0, 0, 0, 0⟩] : List MRec).headI.v *
                ([⟨0, 0, 0, 0⟩] : List MRec).headI.i) /
              (([⟨1, -1, 1, 0⟩] : List MRec).headI.v -
                ([⟨0, 0, 0, 0⟩] : List MRec).headI.v) /
              (([⟨1, -1, 1, 0⟩] : List MRec).headI.t -
                ([⟨0, 0, 0, 0⟩] : List MRec).headI.t)) +
            (gdDefaults 30 (-1) false).momentum * (1/100))) :=
  c5_step_computation_amended (gdDefaults 30 (-1) false) true
    [(0, [⟨1, -1, 1, 0⟩])] [(0, [⟨0, 0, 0, 0⟩])] [] [(0, 1/100)] 0
    [⟨1, -1, 1, 0⟩] [⟨0, 0, 0, 0⟩] (1/100) (by decide) (by decide) (by decide)
    (by decide)

theorem lockClamp_lockVal (lock : Bool) (v : ℚ) :
    lockVal lock (lockClamp lock v) := by
  unfold lockVal lockClamp
  by_cases h1 : lock = true ∧ v < 0
  · rw [if_pos h1]
    refine ⟨fun _ => by norm_num, fun hf => ?_⟩
    rw [hf] at h1
    simp at h1
  · rw [if_neg h1]
    by_cases h2 : lock = false ∧ 0 < v
    · rw [if_pos h2]
      refine ⟨fun ht => ?_, fun _ => by norm_num⟩
      rw [ht] at h2
      simp at h2
    · rw [if_neg h2]
      constructor
      · intro ht
        by_contra hneg
        exact h1 ⟨ht, lt_of_not_le hneg⟩
      · intro hf
        by_contra hpos
        exact h2 ⟨hf, lt_of_not_le hpos⟩

theorem dset_values {α : Type} (P : α → Prop) (l : List (ℕ × α)) (k : ℕ)
    (v : α) (hl : ∀ e ∈ l, P e.2) (hv : P v) :
    ∀ e ∈ dset l k v, P e.2 := by
  induction l with
  | nil =>
    intro e he
    simp only [dset, List.mem_singleton] at he
    rw [he]
    exact hv
  | cons x rest ih =>
    intro e he
    by_cases hx : x.1 = k
    · simp only [dset, if_pos hx] at he
      rcases List.mem_cons.mp he with rfl | hm
      · exact hv
      · exact hl e (List.mem_cons_of_mem _ hm)
    · simp only [dset, if_neg hx] at he
      rcases List.mem_cons.mp he with rfl | hm
      · exact hl e (List.mem_cons_self _ _)
      · exact ih (fun e' he' => hl e' (List.mem_cons_of_mem _ he')) e hm

theorem nextVPass_lockVal (lock : Bool) (pixels : List ℕ)
    (deltas nextV : List (ℕ × ℚ)) (h : ∀ e ∈ nextV, lockVal lock e.2) :
    ∀ e ∈ nextVPass lock pixels deltas nextV, lockVal lock e.2 := by
  induction pixels generalizing nextV with
  | nil => exact h
  | cons c cs ih =>
    simp only [nextVPass, List.foldl_cons]
    rw [show List.foldl (nextVUpd lock deltas) (nextVUpd lock deltas nextV c) cs
        = nextVPass lock cs deltas (nextVUpd lock deltas nextV c) from rfl]
    refine ih _ ?_
    unfold nextVUpd
    exact dset_values _ nextV c _ h (lockClamp_lockVal lock _)

theorem rmv_subset (l : List ℕ) (k x : ℕ) (h : x ∈ rmv l k) : x ∈ l := by
  induction l with
  | nil => cases h
  | cons a rest ih =>
    by_cases ha : a = k
    · simp only [rmv, if_pos ha] at h
      exact List.mem_cons_of_mem _ h
    · simp only [rmv, if_neg ha] at h
      rcases List.mem_cons.mp h with rfl | hm
      · exact List.mem_cons_self _ _
      · exact List.mem_cons_of_mem _ (ih hm)

theorem dscChannel_pixels_subset (env : SmuEnv) (s : DSCSt) (ch : ℕ) :
    ∀ x ∈ (dscChannel env s ch).pixels, x ∈ s.pixels := by
  intro x hx
  unfold dscChannel at hx
  cases hd : dlookup s.data ch with
  | none =>
    rw [hd] at hx
    exact hx
  | some ch_data =>
    rw [hd] at hx
    simp only at hx
    repeat' split at hx
    all_goals
      first
        | exact hx
        | exact rmv_subset _ _ _ hx
        | exact rmv_subset _ _ _ (rmv_subset _ _ _ hx)

theorem detect_pixels_subset (env : SmuEnv) (chs : List ℕ) (s : DSCSt) :
    ∀ x ∈ (chs.foldl (dscChannel env) s).pixels, x ∈ s.pixels := by
  induction chs generalizing s with
  | nil => exact fun x hx => hx
  | cons c cs ih =>
    intro x hx
    exact dscChannel_pixels_subset env s c x (ih (dscChannel env s c) x hx)

theorem dscChannel_trace_pred (P : Call → Prop) (env : SmuEnv) (s : DSCSt)
    (ch : ℕ) (htr : ∀ c ∈ s.trace, P c)
    (hEnF : ∀ x, P (Call.enableOutput false [x]))
    (hPr : ∀ x, P (Call.measureProbe x))
    (hEnT : P (Call.enableOutput true [ch])) :
    ∀ c ∈ (dscChannel env s ch).trace, P c := by
  intro c hc
  unfold dscChannel at hc
  cases hd : dlookup s.data ch with
  | none =>
    rw [hd] at hc
    exact htr c hc
  | some ch_data =>
    rw [hd] at hc
    simp only at hc
    repeat' split at hc
    all_goals
      try simp only [List.append_assoc, List.mem_append, List.mem_cons,
        List.not_mem_nil, or_false, List.mem_singleton] at hc
    all_goals
      repeat' rcases hc with hc | hc
    all_goals
      first
        | exact htr c hc
        | exact hEnF _
        | exact hPr _
        | exact hEnT
        | (subst hc
           first
             | exact hEnF _
             | exact hPr _
             | exact hEnT)

theorem detect_trace_pred (P : Call → Prop) (env : SmuEnv) (chs : List ℕ)
    (s : DSCSt) (htr : ∀ c ∈ s.trace, P c)
    (hEnF : ∀ x, P (Call.enableOutput false [x]))
    (hPr : ∀ x, P (Call.measureProbe x))
    (hEnT : ∀ x ∈ chs, P (Call.enableOutput true [x])) :
    ∀ c ∈ (chs.foldl (dscChannel env) s).trace, P c := by
  induction chs generalizing s with
  | nil => exact htr
  | cons a rest ih =>
    simp only [List.foldl_cons]
    refine ih (dscChannel env s a) ?_ ?_
    · exact dscChannel_trace_pred P env s a htr hEnF hPr
        (hEnT a (List.mem_cons_self _ _))
    · exact fun x hx => hEnT x (List.mem_cons_of_mem _ hx)

theorem detect_short_trace_pred (P : Call → Prop) (env : SmuEnv) (s : DSCSt)
    (htr : ∀ c ∈ s.trace, P c)
    (hEnF : ∀ x, P (Call.enableOutput false [x]))
    (hPr : ∀ x, P (Call.measureProbe x))
    (hEnT : ∀ x ∈ s.pixels, P (Call.enableOutput true [x])) :
    ∀ c ∈ (detect_short_circuits env s).trace, P c :=
  detect_trace_pred P env s.pixels s htr hEnF hPr hEnT

theorem detect_short_pixels_subset (env : SmuEnv) (s : DSCSt) :
    ∀ x ∈ (detect_short_circuits env s).pixels, x ∈ s.pixels :=
  detect_pixels_subset env s.pixels s

theorem gdStep_lock (env : SmuEnv) (p : GDParams) (s : GDSt) :
    (gdStep env p s).lock = s.lock := rfl

theorem soakStep_lock (env : SmuEnv) (s : GDSt) :
    (soakStep env s).lock = s.lock := rfl

theorem soakLoop_lock (env : SmuEnv) (t0l soakT : ℚ) (fuel : ℕ) (s : GDSt) :
    (soakLoop env t0l soakT fuel s).lock = s.lock := by
  induction fuel generalizing s with
  | zero => rfl
  | succ n ih =>
    unfold soakLoop
    dsimp only
    split
    · rw [ih]
      rfl
    · rfl

theorem runSoak_lock (env : SmuEnv) (soakT : ℚ) (fuel : ℕ) (s : GDSt) :
    (runSoak env soakT fuel s).lock = s.lock := by
  unfold runSoak
  simp only
  rw [soakLoop_lock]

theorem gdLoop_lock (env : SmuEnv) (p : GDParams) (dur : ℚ) (fuel : ℕ)
    (s : GDSt) : (gdLoop env p dur fuel s).lock = s.lock := by
  induction fuel generalizing s with
  | zero => rfl
  | succ n ih =>
    unfold gdLoop
    split
    · rw [ih, gdStep_lock]
    · rfl

theorem gdNplc_lock (p : GDParams) (s : GDSt) :
    (gdNplc p s).lock = s.lock := by
  unfold gdNplc
  split <;> rfl

theorem gdBootstrapMeas_lock (env : SmuEnv) (s : GDSt) :
    (gdBootstrapMeas env s).lock = s.lock := rfl

theorem gdSeed_lock (env : SmuEnv) (p : GDParams) (s : GDSt) :
    (gdSeed env p s).lock = s.lock := rfl

theorem gdFinalize_lock (s : GDSt) : (gdFinalize s).lock = s.lock := by
  unfold gdFinalize
  split <;> rfl

theorem gdFinalize_trace (s : GDSt) : (gdFinalize s).trace = s.trace := by
  unfold gdFinalize
  split <;> rfl

theorem gdStep_c1 (env : SmuEnv) (p : GDParams) (s : GDSt) (L : Bool)
    (hL : s.lock = L) (htr : ∀ c ∈ s.trace, lockOK L c)
    (hnv : ∀ e ∈ s.nextV, lockVal L e.2) :
    (∀ c ∈ (gdStep env p s).trace, lockOK L c) ∧
    (∀ e ∈ (gdStep env p s).nextV, lockVal L e.2) := by
  subst hL
  have htr2 : ∀ c ∈ (s.trace ++ [Call.configureDC s.nextV]) ++
      [Call.measureBatch s.pixels], lockOK s.lock c := by
    intro c hc
    simp only [List.mem_append, List.mem_singleton] at hc
    rcases hc with (h | rfl) | rfl
    · exact htr c h
    · exact hnv
    · trivial
  constructor
  · exact detect_short_trace_pred (lockOK s.lock) env
      ⟨s.pixels.map (fun c => (c, env.meas (s.k + 1) c)), s.pixels,
        (s.trace ++ [Call.configureDC s.nextV]) ++ [Call.measureBatch s.pixels],
        s.k + 1 + 1⟩ htr2 (fun _ => trivial) (fun _ => trivial)
      (fun _ _ => trivial)
  · exact nextVPass_lockVal s.lock _ _ s.nextV hnv

theorem gdLoop_c1 (env : SmuEnv) (p : GDParams) (dur : ℚ) (fuel : ℕ)
    (L : Bool) : ∀ s : GDSt, s.lock = L → (∀ c ∈ s.trace, lockOK L c) →
    (∀ e ∈ s.nextV, lockVal L e.2) →
    ∀ c ∈ (gdLoop env p dur fuel s).trace, lockOK L c := by
  induction fuel with
  | zero => exact fun s _ htr _ => htr
  | succ n ih =>
    intro s hL htr hnv
    unfold gdLoop
    split
    · exact ih (gdStep env p s) (by rw [gdStep_lock]; exact hL)
        (gdStep_c1 env p s L hL htr hnv).1 (gdStep_c1 env p s L hL htr hnv).2
    · exact htr

theorem soakStep_c1 (env : SmuEnv) (s : GDSt) (L : Bool) (hL : s.lock = L)
    (htr : ∀ c ∈ s.trace, lockOK L c) :
    ∀ c ∈ (soakStep env s).trace, lockOK L c := by
  subst hL
  have htr1 : ∀ c ∈ s.trace ++ [Call.measureBatch s.pixels], lockOK s.lock c := by
    intro c hc
    rcases List.mem_append.mp hc with h | h
    · exact htr c h
    · rcases List.mem_singleton.mp h with rfl
      trivial
  exact detect_short_trace_pred (lockOK s.lock) env
    ⟨s.pixels.map (fun c => (c, env.meas s.k c)), s.pixels,
      s.trace ++ [Call.measureBatch s.pixels], s.k + 1⟩ htr1
    (fun _ => trivial) (fun _ => trivial) (fun _ _ => trivial)

theorem soakLoop_c1 (env : SmuEnv) (t0l soakT : ℚ) (fuel : ℕ) (L : Bool) :
    ∀ s : GDSt, s.lock = L → (∀ c ∈ s.trace, lockOK L c) →
    ∀ c ∈ (soakLoop env t0l soakT fuel s).trace, lockOK L c := by
  induction fuel with
  | zero => exact fun s _ htr => htr
  | succ n ih =>
    intro s hL htr
    unfold soakLoop
    dsimp only
    split
    · exact ih (soakStep env { s with k := s.k + 1 })
        (by rw [soakStep_lock]; exact hL)
        (soakStep_c1 env { s with k := s.k + 1 } L hL htr)
    · exact htr

theorem runSoak_c1 (env : SmuEnv) (soakT : ℚ) (fuel : ℕ) (s : GDSt)
    (L : Bool) (hL : s.lock = L) (htr : ∀ c ∈ s.trace, lockOK L c) :
    ∀ c ∈ (runSoak env soakT fuel s).trace, lockOK L c := by
  unfold runSoak
  dsimp only
  exact soakLoop_c1 env _ soakT fuel L { s with k := s.k + 1 } hL htr

theorem gdNplc_c1 (p : GDParams) (s : GDSt) (L : Bool) (hL : s.lock = L)
    (htr : ∀ c ∈ s.trace, lockOK L c) :
    ∀ c ∈ (gdNplc p s).trace, lockOK L c := by
  unfold gdNplc
  split
  · intro c hc
    rcases List.mem_append.mp hc with h | h
    · exact htr c h
    · rcases List.mem_singleton.mp h with rfl
      trivial
  · exact htr

theorem gdBootstrapMeas_c1 (env : SmuEnv) (s : GDSt) (L : Bool)
    (hL : s.lock = L) (htr : ∀ c ∈ s.trace, lockOK L c) :
    ∀ c ∈ (gdBootstrapMeas env s).trace, lockOK L c := by
  subst hL
  have htr1 : ∀ c ∈ s.trace ++ [Call.measureBatch s.pixels], lockOK s.lock c := by
    intro c hc
    rcases List.mem_append.mp hc with h | h
    · exact htr c h
    · rcases List.mem_singleton.mp h with rfl
      trivial
  exact detect_short_trace_pred (lockOK s.lock) env
    ⟨s.pixels.map (fun c => (c, env.meas s.k c)), s.pixels,
      s.trace ++ [Call.measureBatch s.pixels], s.k + 1⟩ htr1
    (fun _ => trivial) (fun _ => trivial) (fun _ _ => trivial)

theorem gdSeed_trace (env : SmuEnv) (p : GDParams) (s : GDSt) :
    (gdSeed env p s).trace = s.trace := rfl

theorem gdSeed_nextV (env : SmuEnv) (p : GDParams) (s : GDSt) (L : Bool)
    (hL : s.lock = L) : ∀ e ∈ (gdSeed env p s).nextV, lockVal L e.2 := by
  subst hL
  intro e he
  unfold gdSeed at he
  dsimp only at he
  rcases List.mem_map.mp he with ⟨c, _, rfl⟩
  exact lockClamp_lockVal s.lock _

/-- C1 (amended): under either quadrant lock, every `configure_dc` issued
*inside* `gradient_descent` respects the lock weakly: all setpoints are
`≥ 0` under a positive lock and `≤ 0` under a negative lock (the clamp
substitutes `±1e-4` only for values strictly beyond the sign boundary, so
an exact `0` can be commanded, and the initial `configure_dc` at `V_mpp`
in `launch_tracker` precedes the lock computation and is not clamped at
all — see the counterexample). -/
theorem c1_quadrant_lock_amended (env : SmuEnv) (p : GDParams) (fuel : ℕ)
    (s0 : GDSt) (htr : ∀ c ∈ s0.trace, lockOK s0.lock c) :
    ∀ c ∈ (gradient_descent env p fuel s0).trace, lockOK s0.lock c := by
  unfold gradient_descent
  dsimp only
  rw [gdFinalize_trace]
  have h1 := gdNplc_c1 p s0 s0.lock rfl htr
  have hl1 : (gdNplc p s0).lock = s0.lock := gdNplc_lock p s0
  by_cases hsn : p.snaith = true
  · simp only [hsn, if_true]
    have h2 := runSoak_c1 env 15 fuel (gdNplc p s0) s0.lock hl1 h1
    have hl2 : (runSoak env 15 fuel (gdNplc p s0)).lock = s0.lock := by
      rw [runSoak_lock, gdNplc_lock]
    have h3 := gdBootstrapMeas_c1 env (runSoak env 15 fuel (gdNplc p s0))
      s0.lock hl2 h2
    have hl3 : (gdBootstrapMeas env (runSoak env 15 fuel (gdNplc p s0))).lock
        = s0.lock := by rw [gdBootstrapMeas_lock]; exact hl2
    have h5 : ∀ c ∈ (gdSeed env p (gdBootstrapMeas env
        (runSoak env 15 fuel (gdNplc p s0)))).trace, lockOK s0.lock c := by
      rw [gdSeed_trace]
      exact h3
    have hnv5 := gdSeed_nextV env p
      (gdBootstrapMeas env (runSoak env 15 fuel (gdNplc p s0))) s0.lock hl3
    have hl5 : (gdSeed env p (gdBootstrapMeas env
        (runSoak env 15 fuel (gdNplc p s0)))).lock = s0.lock := by
      rw [gdSeed_lock]
      exact hl3
    have h6 := gdLoop_c1 env p (p.duration - 15 - 3) fuel s0.lock _ hl5 h5 hnv5
    have hl6 : (gdLoop env p (p.duration - 15 - 3) fuel (gdSeed env p
        (gdBootstrapMeas env (runSoak env 15 fuel (gdNplc p s0))))).lock
        = s0.lock := by rw [gdLoop_lock]; exact hl5
    exact runSoak_c1 env 3 fuel _ s0.lock hl6 h6
  · simp only [hsn, if_false]
    have h3 := gdBootstrapMeas_c1 env (gdNplc p s0) s0.lock hl1 h1
    have hl3 : (gdBootstrapMeas env (gdNplc p s0)).lock = s0.lock := by
      rw [gdBootstrapMeas_lock]
      exact hl1
    have h5 : ∀ c ∈ (gdSeed env p (gdBootstrapMeas env (gdNplc p s0))).trace,
        lockOK s0.lock c := by
      rw [gdSeed_trace]
      exact h3
    have hnv5 := gdSeed_nextV env p (gdBootstrapMeas env (gdNplc p s0))
      s0.lock hl3
    have hl5 : (gdSeed env p (gdBootstrapMeas env (gdNplc p s0))).lock
        = s0.lock := by rw [gdSeed_lock]; exact hl3
    exact gdLoop_c1 env p p.duration fuel s0.lock _ hl5 h5 hnv5

/-- C1 witness: the amended theorem applied to a concrete positive-lock
run, evaluated at the first in-loop `configure_dc`
(`V = 0.49 + 0.01 = 0.5`), which indeed respects the lock. -/
theorem c1_quadrant_lock_witness :
    lockOK (gdInit (ltBootstrap envBase (1/10) (-1) (1/10) [0] refVoc07) [0]).lock
      (Call.configureDC [(0, 1/2)]) :=
  c1_quadrant_lock_amended envBase (gdDefaults 5 (-1) false) 3
    (gdInit (ltBootstrap envBase (1/10) (-1) (1/10) [0] refVoc07) [0])
    (by
      intro c hc
      have : (gdInit (ltBootstrap envBase (1/10) (-1) (1/10) [0] refVoc07) [0]).trace
          = [Call.configureDC [(0, 49/100)], Call.enableOutput true [0]] := rfl
      rw [this] at hc
      rcases List.mem_cons.mp hc with rfl | hc
      · intro e he
        rcases List.mem_singleton.mp he with rfl
        exact ⟨fun _ => by norm_num, fun hf => absurd hf (by decide)⟩
      · rcases List.mem_singleton.mp hc with rfl
        trivial)
    (Call.configureDC [(0, 1/2)]) (by decide)

theorem avoids_enF (x ch : ℕ) : avoids ch (Call.enableOutput false [x]) :=
  fun h => absurd h (by simp)

theorem avoids_probe (x ch : ℕ) : avoids ch (Call.measureProbe x) := trivial

theorem avoids_config (vals : List (ℕ × ℚ)) (ch : ℕ) :
    avoids ch (Call.configureDC vals) := trivial

theorem avoids_enT (x ch : ℕ) (h : ch ≠ x) :
    avoids ch (Call.enableOutput true [x]) := by
  intro _
  simp [h]

theorem gdStep_c2 (env : SmuEnv) (p : GDParams) (s : GDSt) (ch : ℕ)
    (hpx : ch ∉ s.pixels) (htr : ∀ c ∈ s.trace, avoids ch c) :
    ch ∉ (gdStep env p s).pixels ∧
    (∀ c ∈ (gdStep env p s).trace, avoids ch c) := by
  have htr2 : ∀ c ∈ (s.trace ++ [Call.configureDC s.nextV]) ++
      [Call.measureBatch s.pixels], avoids ch c := by
    intro c hc
    simp only [List.mem_append, List.mem_singleton] at hc
    rcases hc with (h | rfl) | rfl
    · exact htr c h
    · exact avoids_config _ ch
    · exact hpx
  constructor
  · intro hm
    exact hpx (detect_short_pixels_subset env
      ⟨s.pixels.map (fun c => (c, env.meas (s.k + 1) c)), s.pixels,
        (s.trace ++ [Call.configureDC s.nextV]) ++ [Call.measureBatch s.pixels],
        s.k + 1 + 1⟩ ch hm)
  · exact detect_short_trace_pred (avoids ch) env
      ⟨s.pixels.map (fun c => (c, env.meas (s.k + 1) c)), s.pixels,
        (s.trace ++ [Call.configureDC s.nextV]) ++ [Call.measureBatch s.pixels],
        s.k + 1 + 1⟩ htr2 (fun x => avoids_enF x ch) (fun x => avoids_probe x ch)
      (fun x hx => avoids_enT x ch (fun he => hpx (he ▸ hx)))

theorem gdLoop_c2 (env : SmuEnv) (p : GDParams) (dur : ℚ) (fuel : ℕ)
    (ch : ℕ) : ∀ s : GDSt, ch ∉ s.pixels → (∀ c ∈ s.trace, avoids ch c) →
    ∀ c ∈ (gdLoop env p dur fuel s).trace, avoids ch c := by
  induction fuel with
  | zero => exact fun s _ htr => htr
  | succ n ih =>
    intro s hpx htr
    unfold gdLoop
    split
    · exact ih (gdStep env p s) (gdStep_c2 env p s ch hpx htr).1
        (gdStep_c2 env p s ch hpx htr).2
    · exact htr

theorem soakStep_c2 (env : SmuEnv) (s : GDSt) (ch : ℕ)
    (hpx : ch ∉ s.pixels) (htr : ∀ c ∈ s.trace, avoids ch c) :
    ch ∉ (soakStep env s).pixels ∧
    (∀ c ∈ (soakStep env s).trace, avoids ch c) := by
  have htr1 : ∀ c ∈ s.trace ++ [Call.measureBatch s.pixels], avoids ch c := by
    intro c hc
    rcases List.mem_append.mp hc with h | h
    · exact htr c h
    · rcases List.mem_singleton.mp h with rfl
      exact hpx
  constructor
  · intro hm
    exact hpx (detect_short_pixels_subset env
      ⟨s.pixels.map (fun c => (c, env.meas s.k c)), s.pixels,
        s.trace ++ [Call.measureBatch s.pixels], s.k + 1⟩ ch hm)
  · exact detect_short_trace_pred (avoids ch) env
      ⟨s.pixels.map (fun c => (c, env.meas s.k c)), s.pixels,
        s.trace ++ [Call.measureBatch s.pixels], s.k + 1⟩ htr1
      (fun x => avoids_enF x ch) (fun x => avoids_probe x ch)
      (fun x hx => avoids_enT x ch (fun he => hpx (he ▸ hx)))

theorem soakLoop_c2 (env : SmuEnv) (t0l soakT : ℚ) (fuel : ℕ) (ch : ℕ) :
    ∀ s : GDSt, ch ∉ s.pixels → (∀ c ∈ s.trace, avoids ch c) →
    ch ∉ (soakLoop env t0l soakT fuel s).pixels ∧
    (∀ c ∈ (soakLoop env t0l soakT fuel s).trace, avoids ch c) := by
  induction fuel with
  | zero => exact fun s hpx htr => ⟨hpx, htr⟩
  | succ n ih =>
    intro s hpx htr
    unfold soakLoop
    dsimp only
    split
    · exact ih (soakStep env { s with k := s.k + 1 })
        (soakStep_c2 env { s with k := s.k + 1 } ch hpx htr).1
        (soakStep_c2 env { s with k := s.k + 1 } ch hpx htr).2
    · exact ⟨hpx, htr⟩

theorem runSoak_c2 (env : SmuEnv) (soakT : ℚ) (fuel : ℕ) (s : GDSt)
    (ch : ℕ) (hpx : ch ∉ s.pixels) (htr : ∀ c ∈ s.trace, avoids ch c) :
    ch ∉ (runSoak env soakT fuel s).pixels ∧
    (∀ c ∈ (runSoak env soakT fuel s).trace, avoids ch c) := by
  unfold runSoak
  dsimp only
  exact soakLoop_c2 env _ soakT fuel ch { s with k := s.k + 1 } hpx htr

theorem gdNplc_c2 (p : GDParams) (s : GDSt) (ch : ℕ)
    (hpx : ch ∉ s.pixels) (htr : ∀ c ∈ s.trace, avoids ch c) :
    ch ∉ (gdNplc p s).pixels ∧ (∀ c ∈ (gdNplc p s).trace, avoids ch c) := by
  unfold gdNplc
  split
  · refine ⟨hpx, ?_⟩
    intro c hc
    rcases List.mem_append.mp hc with h | h
    · exact htr c h
    · rcases List.mem_singleton.mp h with rfl
      trivial
  · exact ⟨hpx, htr⟩

theorem gdBootstrapMeas_c2 (env : SmuEnv) (s : GDSt) (ch : ℕ)
    (hpx : ch ∉ s.pixels) (htr : ∀ c ∈ s.trace, avoids ch c) :
    ch ∉ (gdBootstrapMeas env s).pixels ∧
    (∀ c ∈ (gdBootstrapMeas env s).trace, avoids ch c) := by
  have htr1 : ∀ c ∈ s.trace ++ [Call.measureBatch s.pixels], avoids ch c := by
    intro c hc
    rcases List.mem_append.mp hc with h | h
    · exact htr c h
    · rcases List.mem_singleton.mp h with rfl
      exact hpx
  constructor
  · intro hm
    exact hpx (detect_short_pixels_subset env
      ⟨s.pixels.map (fun c => (c, env.meas s.k c)), s.pixels,
        s.trace ++ [Call.measureBatch s.pixels], s.k + 1⟩ ch hm)
  · exact detect_short_trace_pred (avoids ch) env
      ⟨s.pixels.map (fun c => (c, env.meas s.k c)), s.pixels,
        s.trace ++ [Call.measureBatch s.pixels], s.k + 1⟩ htr1
      (fun x => avoids_enF x ch) (fun x => avoids_probe x ch)
      (fun x hx => avoids_enT x ch (fun he => hpx (he ▸ hx)))

theorem gdSeed_pixels (env : SmuEnv) (p : GDParams) (s : GDSt) :
    (gdSeed env p s).pixels = s.pixels := rfl

theorem gdStep_pixels_sub (env : SmuEnv) (p : GDParams) (s : GDSt)
    (ch : ℕ) (hpx : ch ∉ s.pixels) : ch ∉ (gdStep env p s).pixels := by
  intro hm
  exact hpx (detect_short_pixels_subset env
    ⟨s.pixels.map (fun c => (c, env.meas (s.k + 1) c)), s.pixels,
      (s.trace ++ [Call.configureDC s.nextV]) ++ [Call.measureBatch s.pixels],
      s.k + 1 + 1⟩ ch hm)

theorem gdLoop_pixels_c2 (env : SmuEnv) (p : GDParams) (dur : ℚ)
    (fuel : ℕ) (ch : ℕ) : ∀ s : GDSt, ch ∉ s.pixels →
    ch ∉ (gdLoop env p dur fuel s).pixels := by
  induction fuel with
  | zero => exact fun s h => h
  | succ n ih =>
    intro s hpx
    unfold gdLoop
    split
    · exact ih (gdStep env p s) (gdStep_pixels_sub env p s ch hpx)
    · exact hpx

/-- C2 (amended): once the Safety Monitor has evicted a channel from
`pixels`, the remainder of the `gradient_descent` run issues no batch
measurement including that channel and no `enable_output(True, …)`
reaching it.  It does *not* stop addressing the channel in
`configure_dc` (the stale `next_voltages` entry keeps being commanded —
see the counterexample), and a board-mate diagnostic probe may still
measure it. -/
theorem c2_eviction_permanence_amended (env : SmuEnv) (p : GDParams)
    (fuel : ℕ) (s0 : GDSt) (ch : ℕ) (hpx : ch ∉ s0.pixels)
    (htr : ∀ c ∈ s0.trace, avoids ch c) :
    ∀ c ∈ (gradient_descent env p fuel s0).trace, avoids ch c := by
  unfold gradient_descent
  dsimp only
  rw [gdFinalize_trace]
  have h1 := gdNplc_c2 p s0 ch hpx htr
  by_cases hsn : p.snaith = true
  · simp only [hsn, if_true]
    have h2 := runSoak_c2 env 15 fuel (gdNplc p s0) ch h1.1 h1.2
    have h3 := gdBootstrapMeas_c2 env (runSoak env 15 fuel (gdNplc p s0))
      ch h2.1 h2.2
    have h5px : ch ∉ (gdSeed env p (gdBootstrapMeas env
        (runSoak env 15 fuel (gdNplc p s0)))).pixels := by
      rw [gdSeed_pixels]
      exact h3.1
    have h5tr : ∀ c ∈ (gdSeed env p (gdBootstrapMeas env
        (runSoak env 15 fuel (gdNplc p s0)))).trace, avoids ch c := by
      rw [gdSeed_trace]
      exact h3.2
    have h6 := gdLoop_c2 env p (p.duration - 15 - 3) fuel ch _ h5px h5tr
    have h6px : ch ∉ (gdLoop env p (p.duration - 15 - 3) fuel (gdSeed env p
        (gdBootstrapMeas env (runSoak env 15 fuel (gdNplc p s0))))).pixels :=
      gdLoop_pixels_c2 env p (p.duration - 15 - 3) fuel ch _ h5px
    exact (runSoak_c2 env 3 fuel _ ch h6px h6).2
  · simp only [hsn, if_false]
    have h3 := gdBootstrapMeas_c2 env (gdNplc p s0) ch h1.1 h1.2
    have h5px : ch ∉ (gdSeed env p (gdBootstrapMeas env (gdNplc p s0))).pixels := by
      rw [gdSeed_pixels]
      exact h3.1
    have h5tr : ∀ c ∈ (gdSeed env p (gdBootstrapMeas env (gdNplc p s0))).trace,
        avoids ch c := by
      rw [gdSeed_trace]
      exact h3.2
    exact gdLoop_c2 env p p.duration fuel ch _ h5px h5tr

/-- C2 witness: the amended theorem applied to a concrete run and an
absent channel (`5`), evaluated at the run's first batch measurement,
which indeed avoids that channel. -/
theorem c2_eviction_permanence_witness :
    avoids 5 (Call.measureBatch [0]) :=
  c2_eviction_permanence_amended envBase (gdDefaults 5 (-1) false) 2
    (gdInit (ltBootstrap envBase (1/10) (-1) (1/10) [0] refVoc07) [0]) 5
    (by decide)
    (by
      intro c hc
      have htrc : (gdInit (ltBootstrap envBase (1/10) (-1) (1/10) [0] refVoc07) [0]).trace
          = [Call.configureDC [(0, 49/100)], Call.enableOutput true [0]] := rfl
      rw [htrc] at hc
      rcases List.mem_cons.mp hc with rfl | hc
      · trivial
      · rcases List.mem_singleton.mp hc with rfl
        exact avoids_enT 0 5 (by decide))
    (Call.measureBatch [0]) (by decide)

/-- No `enable_output(False, …)` call. -/
def notDisable : Call → Prop
  | Call.enableOutput en _ => en = true
  | _ => True

theorem dscChannel_noop (env : SmuEnv) (s : DSCSt) (ch : ℕ)
    (hok : ∀ e ∈ s.data, ∀ r ∈ e.2, r.status ≠ 1 ∧ r.status ≠ 2) :
    dscChannel env s ch = s := by
  unfold dscChannel
  cases hd : dlookup s.data ch with
  | none => rfl
  | some ch_data =>
    have hmem := dlookup_mem _ _ _ hd
    have h1 : 1 ∉ ch_data.map (fun r => r.status) := by
      intro h
      rcases List.mem_map.mp h with ⟨r, hr, hrs⟩
      exact (hok _ hmem r hr).1 hrs
    have h2 : 2 ∉ ch_data.map (fun r => r.status) := by
      intro h
      rcases List.mem_map.mp h with ⟨r, hr, hrs⟩
      exact (hok _ hmem r hr).2 hrs
    dsimp only
    rw [if_neg h1, if_neg h2]

theorem detect_noop (env : SmuEnv) (chs : List ℕ) :
    ∀ s : DSCSt, (∀ e ∈ s.data, ∀ r ∈ e.2, r.status ≠ 1 ∧ r.status ≠ 2) →
    chs.foldl (dscChannel env) s = s := by
  induction chs with
  | nil => exact fun s _ => rfl
  | cons a rest ih =>
    intro s hok
    simp only [List.foldl_cons]
    rw [dscChannel_noop env s a hok]
    exact ih s hok

theorem detect_short_noop (env : SmuEnv) (s : DSCSt)
    (hok : ∀ e ∈ s.data, ∀ r ∈ e.2, r.status ≠ 1 ∧ r.status ≠ 2) :
    detect_short_circuits env s = s :=
  detect_noop env s.pixels s hok

theorem map_meas_ok (env : SmuEnv) (hns : NoShort env) (k : ℕ)
    (pixels : List ℕ) :
    ∀ e ∈ pixels.map (fun c => (c, env.meas k c)), ∀ r ∈ e.2,
      r.status ≠ 1 ∧ r.status ≠ 2 := by
  intro e he r hr
  rcases List.mem_map.mp he with ⟨c, _, rfl⟩
  exact hns k c r hr

theorem gdStep_c7 (env : SmuEnv) (p : GDParams) (s : GDSt)
    (hns : NoShort env) (htr : ∀ c ∈ s.trace, notDisable c) :
    ∀ c ∈ (gdStep env p s).trace, notDisable c := by
  have e1 : (gdStep env p s).trace
      = (s.trace ++ [Call.configureDC s.nextV]) ++ [Call.measureBatch s.pixels] := by
    show (detect_short_circuits env
      ⟨s.pixels.map (fun c => (c, env.meas (s.k + 1) c)), s.pixels,
        (s.trace ++ [Call.configureDC s.nextV]) ++ [Call.measureBatch s.pixels],
        s.k + 1 + 1⟩).trace = _
    rw [detect_short_noop env _ (map_meas_ok env hns _ _)]
  intro c hc
  rw [e1] at hc
  simp only [List.mem_append, List.mem_singleton] at hc
  rcases hc with (h | rfl) | rfl
  · exact htr c h
  · trivial
  · trivial

theorem soakStep_c7 (env : SmuEnv) (s : GDSt) (hns : NoShort env)
    (htr : ∀ c ∈ s.trace, notDisable c) :
    ∀ c ∈ (soakStep env s).trace, notDisable c := by
  have e1 : (soakStep env s).trace = s.trace ++ [Call.measureBatch s.pixels] := by
    show (detect_short_circuits env
      ⟨s.pixels.map (fun c => (c, env.meas s.k c)), s.pixels,
        s.trace ++ [Call.measureBatch s.pixels], s.k + 1⟩).trace = _
    rw [detect_short_noop env _ (map_meas_ok env hns _ _)]
  intro c hc
  rw [e1] at hc
  rcases List.mem_append.mp hc with h | h
  · exact htr c h
  · rcases List.mem_singleton.mp h with rfl
    trivial

theorem soakLoop_c7 (env : SmuEnv) (t0l soakT : ℚ) (fuel : ℕ)
    (hns : NoShort env) : ∀ s : GDSt, (∀ c ∈ s.trace, notDisable c) →
    ∀ c ∈ (soakLoop env t0l soakT fuel s).trace, notDisable c := by
  induction fuel with
  | zero => exact fun s htr => htr
  | succ n ih =>
    intro s htr
    unfold soakLoop
    dsimp only
    split
    · exact ih (soakStep env { s with k := s.k + 1 })
        (soakStep_c7 env { s with k := s.k + 1 } hns htr)
    · exact htr

theorem runSoak_c7 (env : SmuEnv) (soakT : ℚ) (fuel : ℕ) (s : GDSt)
    (hns : NoShort env) (htr : ∀ c ∈ s.trace, notDisable c) :
    ∀ c ∈ (runSoak env soakT fuel s).trace, notDisable c := by
  unfold runSoak
  dsimp only
  exact soakLoop_c7 env _ soakT fuel hns { s with k := s.k + 1 } htr

theorem gdLoop_c7 (env : SmuEnv) (p : GDParams) (dur : ℚ) (fuel : ℕ)
    (hns : NoShort env) : ∀ s : GDSt, (∀ c ∈ s.trace, notDisable c) →
    ∀ c ∈ (gdLoop env p dur fuel s).trace, notDisable c := by
  induction fuel with
  | zero => exact fun s htr => htr
  | succ n ih =>
    intro s htr
    unfold gdLoop
    split
    · exact ih (gdStep env p s) (gdStep_c7 env p s hns htr)
    · exact htr

theorem gdNplc_c7 (p : GDParams) (s : GDSt)
    (htr : ∀ c ∈ s.trace, notDisable c) :
    ∀ c ∈ (gdNplc p s).trace, notDisable c := by
  unfold gdNplc
  split
  · intro c hc
    rcases List.mem_append.mp hc with h | h
    · exact htr c h
    · rcases List.mem_singleton.mp h with rfl
      trivial
  · exact htr

theorem gdBootstrapMeas_c7 (env : SmuEnv) (s : GDSt) (hns : NoShort env)
    (htr : ∀ c ∈ s.trace, notDisable c) :
    ∀ c ∈ (gdBootstrapMeas env s).trace, notDisable c := by
  have e1 : (gdBootstrapMeas env s).trace
      = s.trace ++ [Call.measureBatch s.pixels] := by
    show (detect_short_circuits env
      ⟨s.pixels.map (fun c => (c, env.meas s.k c)), s.pixels,
        s.trace ++ [Call.measureBatch s.pixels], s.k + 1⟩).trace = _
    rw [detect_short_noop env _ (map_meas_ok env hns _ _)]
  intro c hc
  rw [e1] at hc
  rcases List.mem_append.mp hc with h | h
  · exact htr c h
  · rcases List.mem_singleton.mp h with rfl
    trivial

theorem gradient_descent_c7 (env : SmuEnv) (p : GDParams) (fuel : ℕ)
    (s0 : GDSt) (hns : NoShort env)
    (htr : ∀ c ∈ s0.trace, notDisable c) :
    ∀ c ∈ (gradient_descent env p fuel s0).trace, notDisable c := by
  unfold gradient_descent
  dsimp only
  rw [gdFinalize_trace]
  have h1 := gdNplc_c7 p s0 htr
  by_cases hsn : p.snaith = true
  · simp only [hsn, if_true]
    have h2 := runSoak_c7 env 15 fuel (gdNplc p s0) hns h1
    have h3 := gdBootstrapMeas_c7 env (runSoak env 15 fuel (gdNplc p s0)) hns h2
    have h5 : ∀ c ∈ (gdSeed env p (gdBootstrapMeas env
        (runSoak env 15 fuel (gdNplc p s0)))).trace, notDisable c := by
      rw [gdSeed_trace]
      exact h3
    have h6 := gdLoop_c7 env p (p.duration - 15 - 3) fuel hns _ h5
    exact runSoak_c7 env 3 fuel _ hns h6
  · simp only [hsn, if_false]
    have h3 := gdBootstrapMeas_c7 env (gdNplc p s0) hns h1
    have h5 : ∀ c ∈ (gdSeed env p (gdBootstrapMeas env (gdNplc p s0))).trace,
        notDisable c := by
      rw [gdSeed_trace]
      exact h3
    exact gdLoop_c7 env p p.duration fuel hns _ h5

theorem ltBootstrap_known (env : SmuEnv) (acl nplc iLimit : ℚ)
    (pixels : List ℕ) (r : RefSt) (hvoc : r.voc ≠ []) :
    (ltBootstrap env acl nplc iLimit pixels r).ssvocs = [] ∧
    ∀ c ∈ (ltBootstrap env acl nplc iLimit pixels r).trace, notDisable c := by
  unfold ltBootstrap
  dsimp only
  rw [if_neg hvoc]
  constructor
  · rfl
  · intro c hc
    dsimp only at hc
    rcases List.mem_append.mp hc with h | h
    · by_cases hn : nplc ≠ -1
      · rw [if_pos hn] at h
        rcases List.mem_singleton.mp h with rfl
        trivial
      · rw [if_neg hn] at h
        cases h
    · simp only [List.mem_cons, List.not_mem_nil, or_false] at h
      rcases h with rfl | rfl
      · trivial
      · trivial

theorem ltDispatch_ssvocs (env : SmuEnv) (fuel : ℕ) (boot : LTBoot)
    (pixels : List ℕ) (duration nplc : ℚ) (algo params : String) :
    (ltDispatch env fuel boot pixels duration nplc algo params).ssvocs
      = boot.ssvocs := by
  unfold ltDispatch
  dsimp only
  repeat' split
  all_goals rfl

theorem ltDispatch_c7 (env : SmuEnv) (fuel : ℕ) (boot : LTBoot)
    (pixels : List ℕ) (duration nplc : ℚ) (algo params : String)
    (hns : NoShort env) (hb : ∀ c ∈ boot.trace, notDisable c) :
    ∀ c ∈ (ltDispatch env fuel boot pixels duration nplc algo params).trace,
      notDisable c := by
  unfold ltDispatch
  dsimp only
  repeat' split
  all_goals
    first
      | exact hb
      | exact gradient_descent_c7 env _ fuel (gdInit boot pixels) hns hb

/-- C7 (amended): on every completion of `launch_tracker`, the returned
`ssvocs` is empty exactly as claimed whenever `V_oc` was already known,
but channel outputs are **not** disabled on exit: in a run without
short-circuit evictions and with `V_oc` pre-known, the whole trace
contains no `enable_output(False, …)` at all (outputs remain in their
last state; the only disables the core ever issues are the high-impedance
bootstrap disable and the Safety Monitor's evictions — see the
counterexample for a cancelled run whose outputs stay enabled). -/
theorem c7_cleanup_amended (env : SmuEnv) (acl duration nplc iLimit : ℚ)
    (extra : String) (pixels : List ℕ) (r : RefSt) (fuel : ℕ)
    (hns : NoShort env) (hvoc : r.voc ≠ []) :
    (launch_tracker env acl duration nplc iLimit extra pixels r fuel).ssvocs
        = [] ∧
    ∀ c ∈ (launch_tracker env acl duration nplc iLimit extra pixels r fuel).trace,
      notDisable c := by
  have hb := ltBootstrap_known env acl nplc iLimit pixels r hvoc
  unfold launch_tracker
  cases hsp : splitScheme extra with
  | mk algo op =>
    cases op with
    | none =>
      dsimp only
      exact ⟨hb.1, hb.2⟩
    | some params =>
      dsimp only
      refine ⟨?_, ?_⟩
      · rw [ltDispatch_ssvocs]
        exact hb.1
      · exact ltDispatch_c7 env fuel _ pixels duration nplc algo params hns hb.2

/-- C7 witness: the amended theorem applied to a concrete short-free run
with `V_oc` pre-known. -/
theorem c7_cleanup_witness :
    (launch_tracker envBase (1/10) 5 (-1) (1/10) "gd://" [0] refVoc07 3).ssvocs
        = [] ∧
    ∀ c ∈ (launch_tracker envBase (1/10) 5 (-1) (1/10) "gd://" [0] refVoc07 3).trace,
      notDisable c :=
  c7_cleanup_amended envBase (1/10) 5 (-1) (1/10) "gd://" [0] refVoc07 3
    (by
      intro k c r hr
      have hr2 : r = ⟨1/2, -1/100, 0, 0⟩ := List.mem_singleton.mp hr
      rw [hr2]
      exact ⟨by decide, by decide⟩)
    (by decide)

theorem parseFloats_isSome_iff (l : List String) :
    (parseFloats l).isSome = true ↔ ∀ t ∈ l, (pyFloat t).isSome := by
  induction l with
  | nil => simp [parseFloats]
  | cons a rest ih =>
    cases hf : pyFloat a with
    | none => simp [parseFloats, hf]
    | some q =>
      cases hp : parseFloats rest with
      | none =>
        simp [parseFloats, hf, hp, List.forall_mem_cons, ← ih]
      | some qs =>
        simp [parseFloats, hf, hp, List.forall_mem_cons, ← ih]

/-- C8 (amended): `launch_tracker` raises a `ValueError` exactly when the
algorithm is `gd`/`snaith` and the parameter string is non-empty but does
not consist of exactly 7 colon-separated floats (the descriptive usage
message for a wrong field count, the `float()` conversion error for a bad
field); an empty parameter string selects the defaults and any other
algorithm name merely warns.  The raise, however, does not happen *at
entry*: the bootstrap (V_oc probe, `configure_dc` at `V_mpp`,
`enable_output(True, …)`) has already run when the parameter string is
parsed — see the counterexample. -/
theorem c8_validation_amended (env : SmuEnv) (acl duration nplc iLimit : ℚ)
    (extra : String) (pixels : List ℕ) (r : RefSt) (fuel : ℕ)
    (algo params : String) (hsplit : splitScheme extra = (algo, some params)) :
    isValueError
        (launch_tracker env acl duration nplc iLimit extra pixels r fuel).err
        = true ↔
      ((algo = "gd" ∨ algo = "snaith") ∧ params ≠ "" ∧
        ¬((splitColon params).length = 7 ∧
          ∀ t ∈ splitColon params, (pyFloat t).isSome)) := by
  unfold launch_tracker
  rw [hsplit]
  dsimp only
  unfold ltDispatch
  dsimp only
  by_cases ha : algo = "gd" ∨ algo = "snaith"
  · rw [if_pos ha]
    by_cases hp : params = ""
    · rw [if_pos hp]
      simp [ltFromGD, isValueError, ha, hp]
    · rw [if_neg hp]
      by_cases hlen : (splitColon params).length ≠ 7
      · rw [if_pos hlen]
        simp [isValueError, ha, hp, hlen]
      · rw [if_neg hlen]
        cases hpf : parseFloats (splitColon params) with
        | none =>
          have hall : ¬ ∀ t ∈ splitColon params, (pyFloat t).isSome := by
            rw [← parseFloats_isSome_iff]
            simp [hpf]
          simp [isValueError, ha, hp, hall]
        | some qs =>
          have hall : ∀ t ∈ splitColon params, (pyFloat t).isSome := by
            rw [← parseFloats_isSome_iff]
            simp [hpf]
          simp [ltFromGD, isValueError, ha, hp, hall, not_not.mp hlen]
          intro x hx
          exact Option.isSome_iff_ne_none.mp (hall x hx)
  · rw [if_neg ha]
    simp [isValueError, ha]

/-- C8 witness: the amended theorem applied to `gd://1:2:3` (three
fields, so the `ValueError` fires and the right-hand side holds with
field count 3). -/
theorem c8_validation_witness :
    isValueError
        (launch_tracker envBase (1/10) 30 (-1) (1/10) "gd://1:2:3" [0]
          RefSt.empty 10).err = true ↔
      (("gd" = "gd" ∨ "gd" = "snaith") ∧ "1:2:3" ≠ "" ∧
        ¬((splitColon "1:2:3").length = 7 ∧
          ∀ t ∈ splitColon "1:2:3", (pyFloat t).isSome)) :=
  c8_validation_amended envBase (1/10) 30 (-1) (1/10) "gd://1:2:3" [0]
    RefSt.empty 10 "gd" "1:2:3" rfl

/-- C9 (amended): for every algorithm name other than `gd`/`snaith` — in
particular `basic`, whose perturb-and-observe tracker is commented out in
this source version — `launch_tracker` emits its warning, performs no
tracking (the SMU trace stays exactly the bootstrap trace), raises
nothing and returns an empty trace list `m`. -/
theorem c9_basic_dispatch_amended (env : SmuEnv) (acl duration nplc iLimit : ℚ)
    (extra : String) (pixels : List ℕ) (r : RefSt) (fuel : ℕ)
    (algo params : String) (hsplit : splitScheme extra = (algo, some params))
    (h1 : algo ≠ "gd") (h2 : algo ≠ "snaith") :
    (launch_tracker env acl duration nplc iLimit extra pixels r fuel).m = [] ∧
    (launch_tracker env acl duration nplc iLimit extra pixels r fuel).err = none ∧
    (launch_tracker env acl duration nplc iLimit extra pixels r fuel).trace
      = (ltBootstrap env acl nplc iLimit pixels r).trace := by
  unfold launch_tracker
  rw [hsplit]
  dsimp only
  unfold ltDispatch
  rw [if_neg (by simp [h1, h2])]
  exact ⟨rfl, rfl, rfl⟩

/-- C9 witness: the amended theorem applied to `basic://7:10`. -/
theorem c9_basic_dispatch_witness :
    (launch_tracker envAbortAll (1/10) 30 (-1) (1/10) "basic://7:10" [0]
        refVoc07 10).m = [] ∧
    (launch_tracker envAbortAll (1/10) 30 (-1) (1/10) "basic://7:10" [0]
        refVoc07 10).err = none ∧
    (launch_tracker envAbortAll (1/10) 30 (-1) (1/10) "basic://7:10" [0]
        refVoc07 10).trace
      = (ltBootstrap envAbortAll (1/10) (-1) (1/10) [0] refVoc07).trace :=
  c9_basic_dispatch_amended envAbortAll (1/10) 30 (-1) (1/10) "basic://7:10"
    [0] refVoc07 10 "basic" "7:10" rfl (by decide) (by decide)

/-- C10 (confirmed): `launch_tracker` runs differing only in the
`i_limit` argument perform the same SMU operations and return the same
result: the argument is clamped to `absolute_current_limit` on entry and
the clamped value is never used again (it is neither applied to the SMU
nor read anywhere else in the run). -/
theorem c10_ilimit_noninterference (env : SmuEnv) (acl duration nplc : ℚ)
    (i1 i2 : ℚ) (extra : String) (pixels : List ℕ) (r : RefSt) (fuel : ℕ) :
    launch_tracker env acl duration nplc i1 extra pixels r fuel
      = launch_tracker env acl duration nplc i2 extra pixels r fuel := rfl
